import Mathlib

/-!
# Verification of the CircuitLab MNA engine

Shallow embedding of the Modified Nodal Analysis engine of
`src/js/mnaCore.js` (helpers from `src/js/matrixBuilder.js`).

Modelling conventions:
* JavaScript numbers (IEEE doubles) are idealised as exact rationals;
  math.js complex values are modelled by `CQ`, a pair of rationals.
  `Math.PI` is the rational value of the double-precision constant the
  source actually uses.
* math.js matrices are rectangular lists of rows (`Mat`); the builders
  maintain rectangularity, which is proved where needed.
* A thrown JavaScript `Error` is modelled by `Except MNAError`; the
  constructor of `MNAError` records the error category of the spec's
  taxonomy corresponding to the throw site, and the payload keeps the
  human-readable diagnostic.
* `math.lusolve` (external library code) is idealised as the exact
  unique solution of a non-singular system, computed by Cramer's rule;
  `math.det` is Laplace expansion along the first row.
-/

namespace CircuitLab

/-- Complex numbers with rational components, modelling math.js numeric
values (plain JS numbers are the `im = 0` case). -/
@[ext] structure CQ where
  re : ℚ
  im : ℚ
deriving DecidableEq

namespace CQ

instance : Zero CQ := ⟨⟨0, 0⟩⟩
instance : One CQ := ⟨⟨1, 0⟩⟩
instance : Add CQ := ⟨fun x y => ⟨x.re + y.re, x.im + y.im⟩⟩
instance : Neg CQ := ⟨fun x => ⟨-x.re, -x.im⟩⟩
instance : Mul CQ := ⟨fun x y => ⟨x.re * y.re - x.im * y.im, x.re * y.im + x.im * y.re⟩⟩

@[simp] theorem zero_re : (0 : CQ).re = 0 := rfl
@[simp] theorem zero_im : (0 : CQ).im = 0 := rfl
@[simp] theorem one_re : (1 : CQ).re = 1 := rfl
@[simp] theorem one_im : (1 : CQ).im = 0 := rfl
@[simp] theorem add_re (x y : CQ) : (x + y).re = x.re + y.re := rfl
@[simp] theorem add_im (x y : CQ) : (x + y).im = x.im + y.im := rfl
@[simp] theorem neg_re (x : CQ) : (-x).re = -x.re := rfl
@[simp] theorem neg_im (x : CQ) : (-x).im = -x.im := rfl
@[simp] theorem mul_re (x y : CQ) : (x * y).re = x.re * y.re - x.im * y.im := rfl
@[simp] theorem mul_im (x y : CQ) : (x * y).im = x.re * y.im + x.im * y.re := rfl

instance : CommRing CQ where
  add_assoc a b c := by ext <;> simp <;> ring
  zero_add a := by ext <;> simp
  add_zero a := by ext <;> simp
  add_comm a b := by ext <;> simp <;> ring
  mul_assoc a b c := by ext <;> simp <;> ring
  one_mul a := by ext <;> simp
  mul_one a := by ext <;> simp
  left_distrib a b c := by ext <;> simp <;> ring
  right_distrib a b c := by ext <;> simp <;> ring
  mul_comm a b := by ext <;> simp <;> ring
  zero_mul a := by ext <;> simp
  mul_zero a := by ext <;> simp
  neg_add_cancel a := by ext <;> simp
  nsmul := nsmulRec
  zsmul := zsmulRec

/-- Embed a plain JS number (rational) as a math.js value. -/
def ofRat (q : ℚ) : CQ := ⟨q, 0⟩

@[simp] theorem ofRat_re (q : ℚ) : (ofRat q).re = q := rfl
@[simp] theorem ofRat_im (q : ℚ) : (ofRat q).im = 0 := rfl

/-- Squared magnitude; `math.abs z < t` on complex values is modelled as
`normSq z < t^2`. -/
def normSq (x : CQ) : ℚ := x.re * x.re + x.im * x.im

@[simp] theorem normSq_zero : normSq 0 = 0 := by simp [normSq]

/-- Multiplicative inverse via the conjugate (total, 0 at 0). -/
def inv (x : CQ) : CQ := ⟨x.re / normSq x, -(x.im / normSq x)⟩

/-- Division, used to model exact linear solving. -/
def div (x y : CQ) : CQ := x * inv y

/-- Ring embedding of `CQ` into `ℂ`, used to transport `IsDomain`. -/
def toComplex : CQ →+* ℂ where
  toFun x := Complex.mk (x.re : ℝ) (x.im : ℝ)
  map_one' := by apply Complex.ext <;> simp
  map_mul' x y := by apply Complex.ext <;> simp [Complex.mul_re, Complex.mul_im]
  map_zero' := by apply Complex.ext <;> simp
  map_add' x y := by apply Complex.ext <;> simp [Complex.add_re, Complex.add_im]

theorem toComplex_injective : Function.Injective toComplex := by
  intro x y h
  have hre := congrArg Complex.re h
  have him := congrArg Complex.im h
  simp [toComplex] at hre him
  ext <;> assumption

instance : IsDomain CQ := Function.Injective.isDomain toComplex toComplex_injective

end CQ

instance exceptDecidableEq {ε α : Type} [DecidableEq ε] [DecidableEq α] :
    DecidableEq (Except ε α) := fun x y =>
  match x, y with
  | .ok a, .ok b =>
      if h : a = b then isTrue (by rw [h])
      else isFalse (fun hh => h (Except.ok.inj hh))
  | .error a, .error b =>
      if h : a = b then isTrue (by rw [h])
      else isFalse (fun hh => h (Except.error.inj hh))
  | .ok _, .error _ => isFalse (fun hh => Except.noConfusion hh)
  | .error _, .ok _ => isFalse (fun hh => Except.noConfusion hh)

/-- Element kinds of the circuit model (`tipo` field in the source):
resistor, capacitor, inductor, voltage source, current source. -/
inductive Tipo where
  | R | C | L | V | I
deriving DecidableEq

/-- A circuit element, as consumed by `MNACore.analizarCircuito`:
`{tipo, nombre, nodoPositivo, nodoNegativo, valor}`. -/
structure Elemento where
  tipo : Tipo
  nombre : String
  nodoPositivo : ℕ
  nodoNegativo : ℕ
  valor : ℚ
deriving DecidableEq

/-- Thrown `Error`s, categorised by throw site following the spec's error
taxonomy; the `String` is the diagnostic message. -/
inductive MNAError where
  | degenerateElement (msg : String)
  | dimensionMismatch (msg : String)
  | singularSystem (msg : String)
  | indexOutOfRange (msg : String)
  | invalidInput (msg : String)
  | otherError (msg : String)
deriving DecidableEq

/-- math.js dense matrices: a list of rows. -/
abbrev Mat := List (List CQ)

/-- `math.zeros(filas, columnas)`. -/
def zerosM (filas columnas : ℕ) : Mat :=
  List.replicate filas (List.replicate columnas (0 : CQ))

/-- `math.size(m)[0]`. -/
def numFilas (m : Mat) : ℕ := m.length

/-- `math.size(m)[1]` (matrices are kept rectangular, as in math.js). -/
def numColumnas (m : Mat) : ℕ := (m.headD []).length

/-- Read entry `(r, c)` of a matrix (total; builders stay in range). -/
def entryM (m : Mat) (r c : ℕ) : CQ := (m.getD r []).getD c 0

/-- Pure in-range point update `m[r][c] := v`. -/
def setAt (m : Mat) (r c : ℕ) (v : CQ) : Mat :=
  m.set r ((m.getD r []).set c v)

/-- Pure in-range point increment `m[r][c] += v`. -/
def addAt (m : Mat) (r c : ℕ) (v : CQ) : Mat :=
  setAt m r c (entryM m r c + v)

/-- `MatrixBuilder.sumarElemento`: range-checked `m[fila][columna] += valor`. -/
def sumarElemento (matriz : Mat) (fila columna : ℤ) (valor : CQ) :
    Except MNAError Mat :=
  if fila < 0 ∨ (numFilas matriz : ℤ) ≤ fila then
    .error (.indexOutOfRange "Indice de fila fuera de rango")
  else if columna < 0 ∨ (numColumnas matriz : ℤ) ≤ columna then
    .error (.indexOutOfRange "Indice de columna fuera de rango")
  else
    .ok (addAt matriz fila.toNat columna.toNat valor)

/-- `MatrixBuilder.establecerElemento`: range-checked `m[fila][columna] := valor`. -/
def establecerElemento (matriz : Mat) (fila columna : ℤ) (valor : CQ) :
    Except MNAError Mat :=
  if fila < 0 ∨ (numFilas matriz : ℤ) ≤ fila then
    .error (.indexOutOfRange "Indice de fila fuera de rango")
  else if columna < 0 ∨ (numColumnas matriz : ℤ) ≤ columna then
    .error (.indexOutOfRange "Indice de columna fuera de rango")
  else
    .ok (setAt matriz fila.toNat columna.toNat valor)

/-- `math.transpose` on a rectangular matrix. -/
def mathTranspose (m : Mat) : Mat :=
  (List.range (numColumnas m)).map (fun j => m.map (fun row => row.getD j 0))

/-- The rational value of the IEEE-754 double `Math.PI` used by the source. -/
def mathPI : ℚ := 884279719003555 / 281474976710656

/-- `MNACore.nodoAIndice`: real node number to compacted matrix index;
the ground node maps to `-1`. -/
def nodoAIndice (nodo groundNode : ℕ) : ℤ :=
  if nodo = groundNode then -1
  else if nodo < groundNode then (nodo : ℤ)
  else (nodo : ℤ) - 1

/-- The inverse conversion used during result extraction in
`analizarCircuito`: `nodoReal = (i < groundNode) ? i : i + 1`. -/
def nodoReal (i groundNode : ℕ) : ℕ :=
  if i < groundNode then i else i + 1

/-- Whether an element is passive (stamped into G). -/
def esPasivo (e : Elemento) : Bool :=
  match e.tipo with
  | .R => true | .C => true | .L => true | _ => false

/-- The admittance computed by the `switch` inside `construirMatrizG`
(the zero-ohm resistor throw included). -/
def conductanciaDe (elemento : Elemento) (frequency : ℚ) : Except MNAError CQ :=
  let omega : ℚ := 2 * mathPI * frequency
  match elemento.tipo with
  | .R =>
      if elemento.valor = 0 then
        .error (.degenerateElement
          ("Resistor " ++ elemento.nombre ++ " tiene valor cero (cortocircuito)"))
      else .ok (CQ.ofRat (1 / elemento.valor))
  | .C =>
      if frequency = 0 then .ok 0
      else .ok (CQ.mk 0 (omega * elemento.valor))
  | .L =>
      if frequency = 0 then .ok (CQ.ofRat (10 ^ 12))
      else .ok (CQ.mk 0 (-(1 / (omega * elemento.valor))))
  | _ => .ok 0

/-- One iteration of the stamping loop of `construirMatrizG`. -/
def pasoG (groundNode : ℕ) (frequency : ℚ) (G : Mat) (elemento : Elemento) :
    Except MNAError Mat :=
  (conductanciaDe elemento frequency).bind fun conductancia =>
    let i := nodoAIndice elemento.nodoPositivo groundNode
    let j := nodoAIndice elemento.nodoNegativo groundNode
    (if 0 ≤ i then sumarElemento G i i conductancia else .ok G).bind fun G1 =>
    (if 0 ≤ j then sumarElemento G1 j j conductancia else .ok G1).bind fun G2 =>
    if 0 ≤ i ∧ 0 ≤ j then
      (sumarElemento G2 i j (-conductancia)).bind fun G3 =>
      sumarElemento G3 j i (-conductancia)
    else .ok G2

/-- `MNACore.construirMatrizG`. -/
def construirMatrizG (elementos : List Elemento) (numNodes groundNode : ℕ)
    (frequency : ℚ) : Except MNAError Mat :=
  let n := numNodes - 1
  let elementosPasivos := elementos.filter esPasivo
  elementosPasivos.foldlM (pasoG groundNode frequency) (zerosM n n)

/-- Whether an element is an independent voltage source. -/
def esFuenteV (e : Elemento) : Bool :=
  match e.tipo with | .V => true | _ => false

/-- Whether an element is an independent current source. -/
def esFuenteI (e : Elemento) : Bool :=
  match e.tipo with | .I => true | _ => false

/-- One iteration of the loop of `construirMatrizB` (the pair carries the
source's column index). -/
def pasoB (groundNode : ℕ) (B : Mat) (par : ℕ × Elemento) :
    Except MNAError Mat :=
  let j := par.1
  let fuente := par.2
  let iPosIndice := nodoAIndice fuente.nodoPositivo groundNode
  let iNegIndice := nodoAIndice fuente.nodoNegativo groundNode
  (if 0 ≤ iPosIndice then establecerElemento B iPosIndice (j : ℤ) 1 else .ok B).bind
    fun B1 =>
      if 0 ≤ iNegIndice then establecerElemento B1 iNegIndice (j : ℤ) (-1) else .ok B1

/-- `MNACore.construirMatrizB`. -/
def construirMatrizB (elementos : List Elemento) (numNodes groundNode : ℕ) :
    Except MNAError Mat :=
  let n := numNodes - 1
  let fuentesVoltaje := elementos.filter esFuenteV
  let m := fuentesVoltaje.length
  if m = 0 then .ok (zerosM n 0)
  else fuentesVoltaje.enum.foldlM (pasoB groundNode) (zerosM n m)

/-- `MNACore.construirMatrizC = math.transpose(B)`. -/
def construirMatrizC (B : Mat) : Mat := mathTranspose B

/-- `MNACore.construirMatrizD`: an `m × m` zero matrix. -/
def construirMatrizD (numFuentesVoltaje : ℕ) : Mat :=
  zerosM numFuentesVoltaje numFuentesVoltaje

/-- `MNACore.ensamblarMatrizA`: `[[G, B], [C, D]]` by horizontal then
vertical concatenation. -/
def ensamblarMatrizA (G B C D : Mat) : Mat :=
  (List.zipWith (fun r s => r ++ s) G B) ++ (List.zipWith (fun r s => r ++ s) C D)

/-- One iteration of the loop of `construirVectorI`. -/
def pasoI (groundNode : ℕ) (i : Mat) (fuente : Elemento) :
    Except MNAError Mat :=
  let corriente := CQ.ofRat fuente.valor
  let iPos := nodoAIndice fuente.nodoPositivo groundNode
  let iNeg := nodoAIndice fuente.nodoNegativo groundNode
  (if 0 ≤ iPos then sumarElemento i iPos 0 corriente else .ok i).bind fun i1 =>
    if 0 ≤ iNeg then sumarElemento i1 iNeg 0 (-corriente) else .ok i1

/-- `MNACore.construirVectorI`. -/
def construirVectorI (elementos : List Elemento) (numNodes groundNode : ℕ) :
    Except MNAError Mat :=
  let n := numNodes - 1
  let fuentesCorriente := elementos.filter esFuenteI
  fuentesCorriente.foldlM (pasoI groundNode) (zerosM n 1)

/-- `MNACore.construirVectorE`. -/
def construirVectorE (elementos : List Elemento) : Mat :=
  let fuentesVoltaje := elementos.filter esFuenteV
  let m := fuentesVoltaje.length
  if m = 0 then zerosM 0 1
  else fuentesVoltaje.enum.foldl
    (fun e par => setAt e par.1 0 (CQ.ofRat par.2.valor)) (zerosM m 1)

/-- `MNACore.ensamblarVectorZ`: vertical concatenation of `i` and `e`. -/
def ensamblarVectorZ (i e : Mat) : Mat := i ++ e

/-- Fuel-driven Laplace expansion along the first row, modelling
`math.det` (exact arithmetic). -/
def detFuel : ℕ → Mat → CQ
  | 0, _ => 1
  | _ + 1, [] => 1
  | fuel + 1, r :: rs =>
      ((List.range r.length).map
        (fun j => (-1 : CQ) ^ j * r.getD j 0 *
          detFuel fuel (rs.map (fun row => row.eraseIdx j)))).sum

/-- `math.det` on a square matrix. -/
def detM (m : Mat) : CQ := detFuel m.length m

/-- Column `c` of `A` replaced by the column vector `z`. -/
def reemplazarColumna (A : Mat) (c : ℕ) (z : Mat) : Mat :=
  List.zipWith (fun row zrow => row.set c (zrow.getD 0 0)) A z

/-- `math.lusolve`, idealised: the exact unique solution of a
non-singular square system, by Cramer's rule. -/
def lusolve (A z : Mat) : Except MNAError Mat :=
  let d := detM A
  if d = 0 then .error (.singularSystem "Singular matrix")
  else .ok ((List.range (numFilas A)).map
    (fun k => [CQ.div (detM (reemplazarColumna A k z)) d]))

/-- The diagnostic hint attached to the singular-determinant throw of
`resolverSistema`. -/
def mensajeSingular : String :=
  "Matriz singular detectada, det aprox 0. Posibles causas: nodo sin conexion a tierra, lazo de fuentes de voltaje, cortocircuito que viola LKV, circuito mal definido"

/-- The `try` body of `MNACore.resolverSistema`. -/
def resolverSistemaNucleo (A z : Mat) : Except MNAError Mat :=
  if numFilas A ≠ numColumnas A then
    .error (MNAError.dimensionMismatch "Matriz A no es cuadrada")
  else if numFilas z ≠ numFilas A then
    .error (MNAError.dimensionMismatch "Dimensiones incompatibles entre A y z")
  else if CQ.normSq (detM A) < 1 / 10 ^ 20 then
    .error (MNAError.singularSystem mensajeSingular)
  else
    (lusolve A z).bind fun x =>
      if numFilas x = 0 then
        .error (MNAError.otherError "No se pudo obtener solucion del sistema")
      else .ok x

/-- The message re-wrapping performed by the `catch` block of
`resolverSistema` (categories are preserved; only the text changes). -/
def envolverErrorResolver : MNAError → MNAError
  | .singularSystem m =>
      if m = "Singular matrix" then
        .singularSystem "Error: Matriz singular en MNA. El circuito no puede ser resuelto. Verifique conexiones y nodo de tierra."
      else .singularSystem ("Error al resolver sistema MNA: " ++ m)
  | .dimensionMismatch m => .dimensionMismatch ("Error al resolver sistema MNA: " ++ m)
  | .degenerateElement m => .degenerateElement ("Error al resolver sistema MNA: " ++ m)
  | .indexOutOfRange m => .indexOutOfRange ("Error al resolver sistema MNA: " ++ m)
  | .invalidInput m => .invalidInput ("Error al resolver sistema MNA: " ++ m)
  | .otherError m => .otherError ("Error al resolver sistema MNA: " ++ m)

/-- `MNACore.resolverSistema`. -/
def resolverSistema (A z : Mat) : Except MNAError Mat :=
  match resolverSistemaNucleo A z with
  | .ok x => .ok x
  | .error err => .error (envolverErrorResolver err)

/-- The matrices returned for debugging by `analizarCircuito`. -/
structure Matrices where
  A : Mat
  x : Mat
  z : Mat
  G : Mat
  B : Mat
  C : Mat
  D : Mat
deriving DecidableEq

/-- The result object of `analizarCircuito`. -/
structure Resultado where
  exito : Bool
  error : Option MNAError
  voltajes : List (ℕ × CQ)
  corrientes : List (String × CQ)
  matrices : Option Matrices
deriving DecidableEq

/-- Node-voltage extraction loop of `analizarCircuito` (step 5), with the
final `voltajes[groundNode] = 0` assignment. -/
def extraerVoltajes (numNodes groundNode : ℕ) (x : Mat) : List (ℕ × CQ) :=
  (List.range (numNodes - 1)).map (fun k => (nodoReal k groundNode, entryM x k 0))
    ++ [(groundNode, (0 : CQ))]

/-- Voltage-source branch-current extraction loop of `analizarCircuito`. -/
def extraerCorrientes (elementos : List Elemento) (numNodes : ℕ) (x : Mat) :
    List (String × CQ) :=
  (elementos.filter esFuenteV).enum.map
    (fun par => (par.2.nombre, entryM x ((numNodes - 1) + par.1) 0))

/-- The `try` body of `MNACore.analizarCircuito`: validation, assembly,
solve, and result extraction.  (The connectivity scan of the source only
emits a `console.warn` and has no effect on the result, so it is not
modelled.) -/
def analizarCircuitoNucleo (elementos : List Elemento) (numNodes groundNode : ℕ)
    (frequency : ℚ) :
    Except MNAError (List (ℕ × CQ) × List (String × CQ) × Matrices) :=
  if elementos.length = 0 then
    .error (MNAError.invalidInput "No hay elementos en el circuito")
  else if numNodes < 2 then
    .error (MNAError.invalidInput "El circuito debe tener al menos 2 nodos incluyendo tierra")
  else if numNodes ≤ groundNode then
    .error (MNAError.invalidInput "Nodo de tierra invalido")
  else if frequency < 0 then
    .error (MNAError.invalidInput "La frecuencia no puede ser negativa")
  else
    let m := (elementos.filter esFuenteV).length
    (construirMatrizG elementos numNodes groundNode frequency).bind fun G =>
    (construirMatrizB elementos numNodes groundNode).bind fun B =>
    let C := construirMatrizC B
    let D := construirMatrizD m
    let A := ensamblarMatrizA G B C D
    (construirVectorI elementos numNodes groundNode).bind fun i =>
    let e := construirVectorE elementos
    let z := ensamblarVectorZ i e
    (resolverSistema A z).bind fun x =>
    .ok (extraerVoltajes numNodes groundNode x,
         extraerCorrientes elementos numNodes x,
         ⟨A, x, z, G, B, C, D⟩)

/-- `MNACore.analizarCircuito`: the whole analysis, with every thrown
error converted into a structured failure result by the `catch` block. -/
def analizarCircuito (elementos : List Elemento) (numNodes groundNode : ℕ)
    (frequency : ℚ) : Resultado :=
  match analizarCircuitoNucleo elementos numNodes groundNode frequency with
  | .ok r =>
      { exito := true, error := none, voltajes := r.1,
        corrientes := r.2.1, matrices := some r.2.2 }
  | .error err =>
      { exito := false, error := some err, voltajes := [],
        corrientes := [], matrices := none }

set_option maxRecDepth 1000000

/-- Two nodes are connected when some element has them as its two
terminals (in either orientation). -/
def Conecta (el : List Elemento) (a b : ℕ) : Prop :=
  ∃ e ∈ el, (e.nodoPositivo = a ∧ e.nodoNegativo = b) ∨
    (e.nodoPositivo = b ∧ e.nodoNegativo = a)

/-- Reachability from the reference node via element connections (the
notion the spec uses for the floating-node requirement). -/
inductive Alcanzable (el : List Elemento) (g : ℕ) : ℕ → Prop where
  | base : Alcanzable el g g
  | step {a b : ℕ} : Alcanzable el g a → Conecta el a b → Alcanzable el g b

/-- The list matrix viewed as a Mathlib square matrix (entries read by
`entryM`, out-of-range reads give 0). -/
def toMat (N : ℕ) (A : Mat) : Matrix (Fin N) (Fin N) CQ :=
  Matrix.of fun i j => entryM A i j

/-! ## Reference stamping written from the spec's words (§4.2 step 2),
to be compared with `construirMatrizG` -/

/-- Admittance of a passive element per spec §4.1 (resistor `1/value`;
capacitor `0` at DC, `j·2πf·C` in AC; inductor `1e12` at DC — the spec's
documented large-admittance compromise — and `−j/(2πf·L)` in AC). -/
def admitanciaSpec (e : Elemento) (f : ℚ) : CQ :=
  match e.tipo with
  | Tipo.R => CQ.ofRat (1 / e.valor)
  | Tipo.C => if f = 0 then 0 else CQ.mk 0 (2 * mathPI * f * e.valor)
  | Tipo.L =>
      if f = 0 then CQ.ofRat (10 ^ 12)
      else CQ.mk 0 (-(1 / (2 * mathPI * f * e.valor)))
  | _ => 0

/-- One stamp of the spec's reference conductance stamping: with
admittance `y` and compacted indices `i`, `j`, add `y` at `[i][i]` and
`[j][j]` when present, subtract at `[i][j]` and `[j][i]` when both are. -/
def estampaRefPaso (g : ℕ) (f : ℚ) (G : Mat) (e : Elemento) : Mat :=
  let y := admitanciaSpec e f
  let i := nodoAIndice e.nodoPositivo g
  let j := nodoAIndice e.nodoNegativo g
  let G1 := if 0 ≤ i then addAt G i.toNat i.toNat y else G
  let G2 := if 0 ≤ j then addAt G1 j.toNat j.toNat y else G1
  if 0 ≤ i ∧ 0 ≤ j then
    addAt (addAt G2 i.toNat j.toNat (-y)) j.toNat i.toNat (-y)
  else G2

/-- The spec's reference stamping: start from the `(numNodes−1)`-square
zero matrix and stamp each passive element; non-passive elements
contribute nothing. -/
def estampadoReferencia (el : List Elemento) (nn g : ℕ) (f : ℚ) : Mat :=
  (el.filter esPasivo).foldl (estampaRefPaso g f) (zerosM (nn - 1) (nn - 1))

/-! ## Concrete circuits used as witnesses -/

/-- Nodes `{0,1,2}`, reference 0: `V1` (10 V) from node 1 (+) to node 0 (−),
`R1` (1000 Ω) between 1 and 2, `R2` (1000 Ω) between 2 and 0. -/
def circuitoDivisor : List Elemento :=
  [⟨Tipo.V, "V1", 1, 0, 10⟩, ⟨Tipo.R, "R1", 1, 2, 1000⟩, ⟨Tipo.R, "R2", 2, 0, 1000⟩]

/-- Concrete no-voltage-source circuit: a 1 A current source and a
1000 Ω resistor between node 1 and ground. -/
def circuitoSinV : List Elemento :=
  [⟨Tipo.I, "I1", 1, 0, 1⟩, ⟨Tipo.R, "R1", 1, 0, 1000⟩]

/-- A resistor with the non-positive value −5 Ω between node 1 and ground. -/
def resistorNegativo : Elemento := ⟨Tipo.R, "R1", 1, 0, -5⟩

/-- A zero-ohm resistor between node 1 and ground. -/
def resistorCero : Elemento := ⟨Tipo.R, "R0", 1, 0, 0⟩

/-- Nodes `{0,1,2}`, reference 0, a single 10 V source between node 1 and
ground: node 2 touches no element, so it is unreachable from the
reference. -/
def circuitoFlotante : List Elemento := [⟨Tipo.V, "V1", 1, 0, 10⟩]

/-- Nodes `{0,1,2}`, reference 0: a 1 Ω resistor between node 1 and
ground, plus a 10 V source whose two terminals are both node 2.  Node 2
is unreachable from the reference, yet the assembled system is
non-singular (the source row forces the voltage of node 2 directly). -/
def circuitoAutolazo : List Elemento :=
  [⟨Tipo.R, "R1", 1, 0, 1⟩, ⟨Tipo.V, "V1", 2, 2, 10⟩]

/-! ## Shape lemmas and step inversions -/

@[simp] theorem except_pure_eq_ok {ε α : Type} (a : α) :
    (pure a : Except ε α) = Except.ok a := rfl

@[simp] theorem except_bind_ok {ε α β : Type} (a : α) (f : α → Except ε β) :
    Except.bind (Except.ok a) f = f a := rfl

@[simp] theorem except_bind_error {ε α β : Type} (e : ε) (f : α → Except ε β) :
    Except.bind (Except.error e) f = Except.error e := rfl

@[simp] theorem except_seq_ok {ε α β : Type} (a : α) (f : α → Except ε β) :
    (Except.ok a >>= f) = f a := rfl

@[simp] theorem except_seq_error {ε α β : Type} (e : ε) (f : α → Except ε β) :
    ((Except.error e : Except ε α) >>= f) = Except.error e := rfl

/-- Rectangularity: `m` is an `r × c` matrix. -/
def esMatriz (m : Mat) (r c : ℕ) : Prop :=
  m.length = r ∧ ∀ row ∈ m, row.length = c

theorem esMatriz_zerosM (r c : ℕ) : esMatriz (zerosM r c) r c :=
  ⟨List.length_replicate r _,
   fun _ hrow => by rw [List.eq_of_mem_replicate hrow]; exact List.length_replicate c _⟩

theorem numFilas_of_esMatriz {m : Mat} {r c : ℕ} (h : esMatriz m r c) :
    numFilas m = r := h.1

theorem numColumnas_of_esMatriz {m : Mat} {r c : ℕ} (h : esMatriz m r c)
    (hr : r ≠ 0) : numColumnas m = c := by
  rcases m with _ | ⟨row, rest⟩
  · exact absurd h.1.symm hr
  · exact h.2 row (List.mem_cons_self row rest)

theorem getD_length_of_esMatriz {m : Mat} {r c : ℕ} (h : esMatriz m r c)
    {i : ℕ} (hi : i < r) : (m.getD i []).length = c := by
  have hi' : i < m.length := h.1 ▸ hi
  rw [List.getD_eq_getElem?_getD, List.getElem?_eq_getElem hi', Option.getD_some]
  exact h.2 _ (List.getElem_mem hi')

theorem esMatriz_setAt {m : Mat} {r c : ℕ} (h : esMatriz m r c)
    (i j : ℕ) (hi : i < r) (v : CQ) : esMatriz (setAt m i j v) r c := by
  refine ⟨by rw [setAt, List.length_set]; exact h.1, fun row hrow => ?_⟩
  rcases List.mem_or_eq_of_mem_set hrow with hmem | heq
  · exact h.2 _ hmem
  · rw [heq, List.length_set]; exact getD_length_of_esMatriz h hi

theorem esMatriz_addAt {m : Mat} {r c : ℕ} (h : esMatriz m r c)
    (i j : ℕ) (hi : i < r) (v : CQ) : esMatriz (addAt m i j v) r c :=
  esMatriz_setAt h i j hi _

/-- Inversion of `sumarElemento`: success is exactly in-range access, and
then the result is the pure `addAt` update. -/
theorem sumarElemento_eq_ok {m m' : Mat} {fila columna : ℤ} {v : CQ} :
    sumarElemento m fila columna v = .ok m' ↔
      (0 ≤ fila ∧ fila < (numFilas m : ℤ) ∧ 0 ≤ columna ∧ columna < (numColumnas m : ℤ) ∧
        m' = addAt m fila.toNat columna.toNat v) := by
  unfold sumarElemento
  split_ifs with h1 h2
  · simp; omega
  · simp; omega
  · constructor
    · intro h; refine ⟨by omega, by omega, by omega, by omega, (Except.ok.inj h).symm⟩
    · intro h; rw [h.2.2.2.2]

/-- Inversion of `establecerElemento`. -/
theorem establecerElemento_eq_ok {m m' : Mat} {fila columna : ℤ} {v : CQ} :
    establecerElemento m fila columna v = .ok m' ↔
      (0 ≤ fila ∧ fila < (numFilas m : ℤ) ∧ 0 ≤ columna ∧ columna < (numColumnas m : ℤ) ∧
        m' = setAt m fila.toNat columna.toNat v) := by
  unfold establecerElemento
  split_ifs with h1 h2
  · simp; omega
  · simp; omega
  · constructor
    · intro h; refine ⟨by omega, by omega, by omega, by omega, (Except.ok.inj h).symm⟩
    · intro h; rw [h.2.2.2.2]

theorem sumarElemento_error {m : Mat} {fila columna : ℤ} {v : CQ} {err : MNAError}
    (h : sumarElemento m fila columna v = .error err) :
    ∃ msg, err = .indexOutOfRange msg := by
  unfold sumarElemento at h
  split_ifs at h
  · exact ⟨_, (Except.error.inj h).symm⟩
  · exact ⟨_, (Except.error.inj h).symm⟩

/-- An `Except`-valued left fold preserves an invariant on success. -/
theorem foldlM_ok_preserva {σ α : Type} (step : σ → α → Except MNAError σ)
    (P : σ → Prop)
    (hstep : ∀ s a s', P s → step s a = .ok s' → P s') :
    ∀ (l : List α) (init res : σ), P init →
      l.foldlM step init = .ok res → P res := by
  intro l
  induction l with
  | nil => intro init res hP h; cases h; exact hP
  | cons a l ih =>
      intro init res hP h
      rw [List.foldlM_cons] at h
      cases hs : step init a with
      | error e => rw [hs] at h; exact absurd h (by simp)
      | ok s' =>
          rw [hs] at h; simp only [except_seq_ok] at h
          exact ih s' res (hstep init a s' hP hs) h

/-- An `Except`-valued left fold succeeds (with invariant) when every step
does. -/
theorem foldlM_ok_existe {σ α : Type} (step : σ → α → Except MNAError σ)
    (P : σ → Prop) :
    ∀ (l : List α) (init : σ), P init →
      (∀ s a, a ∈ l → P s → ∃ s', step s a = .ok s' ∧ P s') →
      ∃ res, l.foldlM step init = .ok res ∧ P res := by
  intro l
  induction l with
  | nil => intro init hP _; exact ⟨init, rfl, hP⟩
  | cons a l ih =>
      intro init hP hstep
      obtain ⟨s', hs, hPs⟩ := hstep init a (List.mem_cons_self a l) hP
      obtain ⟨res, hres, hPres⟩ :=
        ih s' hPs (fun s b hb hPb => hstep s b (List.mem_cons_of_mem a hb) hPb)
      exact ⟨res, by rw [List.foldlM_cons, hs]; simpa [Except.bind] using hres, hPres⟩

/-- Inversion of the analysis pipeline: a successful result always comes
from the final extraction step applied to some solution vector. -/
theorem analizarNucleo_ok_estructura {el : List Elemento} {nn g : ℕ} {f : ℚ}
    {r : List (ℕ × CQ) × List (String × CQ) × Matrices}
    (h : analizarCircuitoNucleo el nn g f = .ok r) :
    ∃ x, r.1 = extraerVoltajes nn g x ∧ r.2.1 = extraerCorrientes el nn x := by
  unfold analizarCircuitoNucleo at h
  split_ifs at h
  cases hG : construirMatrizG el nn g f with
  | error e => rw [hG] at h; exact absurd h (by simp)
  | ok G =>
  rw [hG] at h; simp only [except_bind_ok] at h
  cases hB : construirMatrizB el nn g with
  | error e => rw [hB] at h; exact absurd h (by simp)
  | ok B =>
  rw [hB] at h; simp only [except_bind_ok] at h
  cases hI : construirVectorI el nn g with
  | error e => rw [hI] at h; exact absurd h (by simp)
  | ok i =>
  rw [hI] at h; simp only [except_bind_ok] at h
  cases hX : resolverSistema
      (ensamblarMatrizA G B (construirMatrizC B)
        (construirMatrizD (el.filter esFuenteV).length))
      (ensamblarVectorZ i (construirVectorE el)) with
  | error e => rw [hX] at h; exact absurd h (by simp)
  | ok x =>
  rw [hX] at h; simp only [except_bind_ok] at h
  obtain rfl := Except.ok.inj h
  exact ⟨x, rfl, rfl⟩

theorem nodoReal_ne_ground (k g : ℕ) : nodoReal k g ≠ g := by
  unfold nodoReal; split_ifs <;> omega

/-- Looking up the ground node in the extracted voltage map always gives
the explicitly assigned 0. -/
theorem lookup_extraerVoltajes (nn g : ℕ) (x : Mat) :
    (extraerVoltajes nn g x).lookup g = some 0 := by
  unfold extraerVoltajes
  induction List.range (nn - 1) with
  | nil => simp [List.lookup]
  | cons a l ih =>
      simp only [List.map_cons, List.cons_append, List.lookup]
      rw [show (g == nodoReal a g) = false from
        beq_eq_false_iff_ne.mpr (Ne.symm (nodoReal_ne_ground a g))]
      simpa using ih

/-! ## The resistor-divider test circuit of the spec (§8) -/

/-- C1: on the resistor-divider DC circuit (nodes `{0,1,2}`, reference 0,
V1 = 10 V between 1 and 0, R1 = R2 = 1000 Ω), `analizarCircuito` succeeds
and reports node 1 voltage exactly 10, node 2 voltage exactly 5, and V1
branch current exactly −0.005 (= −1/200). -/
theorem divisor_resultados :
    (analizarCircuito circuitoDivisor 3 0 0).exito = true ∧
    (analizarCircuito circuitoDivisor 3 0 0).voltajes.lookup 1 = some (CQ.ofRat 10) ∧
    (analizarCircuito circuitoDivisor 3 0 0).voltajes.lookup 2 = some (CQ.ofRat 5) ∧
    (analizarCircuito circuitoDivisor 3 0 0).corrientes.lookup "V1"
      = some (CQ.ofRat (-(1 / 200))) :=
  of_decide_eq_true (by with_unfolding_all rfl)

/-- C3: the admittance stamped for a capacitor is exactly `0` at DC
(frequency 0) and exactly `j·2π·f·value` at frequency `f > 0`; for an
inductor at `f > 0` it is exactly `−j/(2π·f·value)` — purely imaginary
(zero real part) in both AC cases.  `mathPI` is the source's `Math.PI`
constant; arithmetic is idealised as exact. -/
theorem conductancia_reactiva (e : Elemento) (f : ℚ) :
    (e.tipo = Tipo.C → f = 0 → conductanciaDe e f = .ok 0) ∧
    (e.tipo = Tipo.C → 0 < f →
      conductanciaDe e f = .ok (CQ.mk 0 (2 * mathPI * f * e.valor))) ∧
    (e.tipo = Tipo.L → 0 < f →
      conductanciaDe e f = .ok (CQ.mk 0 (-(1 / (2 * mathPI * f * e.valor))))) :=
  ⟨fun ht hf => by simp [conductanciaDe, ht, hf],
   fun ht hf => by simp [conductanciaDe, ht, ne_of_gt hf],
   fun ht hf => by simp [conductanciaDe, ht, ne_of_gt hf]⟩

/-- Witness for C3 at a concrete capacitor and inductor with value 1 at
frequency 1 Hz, and a capacitor at DC. -/
theorem conductancia_reactiva_testigo :
    conductanciaDe ⟨Tipo.C, "C1", 1, 0, 1⟩ 0 = .ok 0 ∧
    conductanciaDe ⟨Tipo.C, "C1", 1, 0, 1⟩ 1 = .ok (CQ.mk 0 (2 * mathPI * 1 * 1)) ∧
    conductanciaDe ⟨Tipo.L, "L1", 1, 0, 1⟩ 1 = .ok (CQ.mk 0 (-(1 / (2 * mathPI * 1 * 1)))) :=
  ⟨(conductancia_reactiva ⟨Tipo.C, "C1", 1, 0, 1⟩ 0).1 rfl rfl,
   (conductancia_reactiva ⟨Tipo.C, "C1", 1, 0, 1⟩ 1).2.1 rfl one_pos,
   (conductancia_reactiva ⟨Tipo.L, "L1", 1, 0, 1⟩ 1).2.2 rfl one_pos⟩

/-- C9: `nodoAIndice` maps the reference node to −1, keeps numbers below
the reference, shifts numbers above it down by one; it is injective on
non-reference nodes, and the extraction formula `nodoReal` used in
`analizarCircuito` is its exact inverse on non-reference nodes. -/
theorem nodoAIndice_correcto :
    (∀ g : ℕ, nodoAIndice g g = -1) ∧
    (∀ nodo g : ℕ, nodo < g → nodoAIndice nodo g = (nodo : ℤ)) ∧
    (∀ nodo g : ℕ, g < nodo → nodoAIndice nodo g = (nodo : ℤ) - 1) ∧
    (∀ n1 n2 g : ℕ, n1 ≠ g → n2 ≠ g →
      nodoAIndice n1 g = nodoAIndice n2 g → n1 = n2) ∧
    (∀ nodo g : ℕ, nodo ≠ g → nodoReal (nodoAIndice nodo g).toNat g = nodo) := by
  refine ⟨?_, ?_, ?_, ?_, ?_⟩
  · intro g; simp [nodoAIndice]
  · intro nodo g h; simp only [nodoAIndice]; split_ifs <;> omega
  · intro nodo g h; simp only [nodoAIndice]; split_ifs <;> omega
  · intro n1 n2 g h1 h2 heq
    simp only [nodoAIndice] at heq; split_ifs at heq <;> omega
  · intro nodo g h
    simp only [nodoAIndice, nodoReal]; split_ifs <;> omega

/-- Witness for C9 at concrete nodes: reference 4 (below, equal, above)
and round-trips through the extraction formula. -/
theorem nodoAIndice_correcto_testigo :
    nodoAIndice 4 4 = -1 ∧ nodoAIndice 1 4 = 1 ∧ nodoAIndice 7 4 = 6 ∧
    nodoReal (nodoAIndice 7 4).toNat 4 = 7 ∧ nodoReal (nodoAIndice 1 4).toNat 4 = 1 :=
  ⟨nodoAIndice_correcto.1 4,
   nodoAIndice_correcto.2.1 1 4 (by decide),
   nodoAIndice_correcto.2.2.1 7 4 (by decide),
   nodoAIndice_correcto.2.2.2.2 7 4 (by decide),
   nodoAIndice_correcto.2.2.2.2 1 4 (by decide)⟩

/-- C7: `analizarCircuito` is total — every internal error is caught and
returned as a structured failure (success flag `false`, an error present,
empty voltage and current mappings, `matrices = none`); no partial
numeric result is ever exposed on failure. -/
theorem analizar_total_estructurado (elementos : List Elemento)
    (numNodes groundNode : ℕ) (frequency : ℚ) :
    ((analizarCircuito elementos numNodes groundNode frequency).exito = true ∧
     (analizarCircuito elementos numNodes groundNode frequency).error = none) ∨
    ((analizarCircuito elementos numNodes groundNode frequency).exito = false ∧
     (∃ err, (analizarCircuito elementos numNodes groundNode frequency).error = some err) ∧
     (analizarCircuito elementos numNodes groundNode frequency).voltajes = [] ∧
     (analizarCircuito elementos numNodes groundNode frequency).corrientes = [] ∧
     (analizarCircuito elementos numNodes groundNode frequency).matrices = none) := by
  unfold analizarCircuito
  cases analizarCircuitoNucleo elementos numNodes groundNode frequency <;> simp

/-- C8: whenever `analizarCircuito` succeeds, the reported voltage of the
reference (ground) node is exactly 0 — it is assigned by definition in the
extraction step, not read from the solution vector. -/
theorem voltaje_tierra_cero (elementos : List Elemento)
    (numNodes groundNode : ℕ) (frequency : ℚ)
    (h : (analizarCircuito elementos numNodes groundNode frequency).exito = true) :
    (analizarCircuito elementos numNodes groundNode frequency).voltajes.lookup
      groundNode = some 0 := by
  unfold analizarCircuito at h ⊢
  cases hN : analizarCircuitoNucleo elementos numNodes groundNode frequency with
  | error e => rw [hN] at h; simp at h
  | ok r =>
      obtain ⟨x, hv, _⟩ := analizarNucleo_ok_estructura hN
      simpa [hv] using lookup_extraerVoltajes numNodes groundNode x

/-- Witness for C8 on the resistor-divider circuit. -/
theorem voltaje_tierra_cero_testigo :
    (analizarCircuito circuitoDivisor 3 0 0).voltajes.lookup 0 = some 0 :=
  voltaje_tierra_cero circuitoDivisor 3 0 0
    (of_decide_eq_true (by with_unfolding_all rfl))

/-! ## Circuits without voltage sources (C10) -/

theorem filter_esFuenteV_nil {el : List Elemento}
    (hV : ∀ e ∈ el, e.tipo ≠ Tipo.V) : el.filter esFuenteV = [] := by
  rw [List.filter_eq_nil_iff]
  intro e he
  have := hV e he
  cases h : e.tipo <;> simp [esFuenteV, h]
  exact this h

theorem zipWith_append_replicate_nil :
    ∀ (G : Mat), List.zipWith (fun r s => r ++ s) G (List.replicate G.length []) = G := by
  intro G
  induction G with
  | nil => rfl
  | cons row rest ih => simp [List.replicate_succ, ih]

theorem mathTranspose_zeros_cols (n : ℕ) : mathTranspose (zerosM n 0) = [] := by
  unfold mathTranspose numColumnas zerosM
  cases n <;> simp [List.replicate_succ]

/-- Shape of the conductance matrix produced by `construirMatrizG`. -/
theorem construirMatrizG_shape {el : List Elemento} {nn g : ℕ} {f : ℚ} {G : Mat}
    (h : construirMatrizG el nn g f = .ok G) : esMatriz G (nn - 1) (nn - 1) := by
  revert h
  unfold construirMatrizG
  intro h
  refine foldlM_ok_preserva _ (fun M => esMatriz M (nn - 1) (nn - 1)) ?_ _ _ _
    (esMatriz_zerosM _ _) h
  intro s a s' hP hs
  unfold pasoG at hs
  cases hc : conductanciaDe a f with
  | error e => rw [hc] at hs; exact absurd hs (by simp)
  | ok y =>
  rw [hc] at hs; simp only [except_bind_ok] at hs
  have step1 : ∀ (M M' : Mat) (fila col : ℤ) (v : CQ), esMatriz M (nn - 1) (nn - 1) →
      sumarElemento M fila col v = .ok M' → esMatriz M' (nn - 1) (nn - 1) := by
    intro M M' fila col v hM hok
    obtain ⟨h1, h2, _, _, rfl⟩ := sumarElemento_eq_ok.mp hok
    exact esMatriz_addAt hM fila.toNat col.toNat (by rw [numFilas_of_esMatriz hM] at h2; omega) v
  have cond1 : ∀ (M : Mat) (b : Prop) [Decidable b] (fila col : ℤ) (v : CQ) (M' : Mat),
      esMatriz M (nn - 1) (nn - 1) →
      (if b then sumarElemento M fila col v else .ok M) = .ok M' →
      esMatriz M' (nn - 1) (nn - 1) := by
    intro M b _ fila col v M' hM hok
    split_ifs at hok with hb
    · exact step1 M M' _ _ _ hM hok
    · rw [← Except.ok.inj hok]; exact hM
  cases h1 : (if 0 ≤ nodoAIndice a.nodoPositivo g then
      sumarElemento s (nodoAIndice a.nodoPositivo g) (nodoAIndice a.nodoPositivo g) y
    else .ok s) with
  | error e => rw [h1] at hs; exact absurd hs (by simp)
  | ok G1 =>
  rw [h1] at hs; simp only [except_bind_ok] at hs
  have hG1 := cond1 s _ _ _ _ G1 hP h1
  cases h2 : (if 0 ≤ nodoAIndice a.nodoNegativo g then
      sumarElemento G1 (nodoAIndice a.nodoNegativo g) (nodoAIndice a.nodoNegativo g) y
    else .ok G1) with
  | error e => rw [h2] at hs; exact absurd hs (by simp)
  | ok G2 =>
  rw [h2] at hs; simp only [except_bind_ok] at hs
  have hG2 := cond1 G1 _ _ _ _ G2 hG1 h2
  split_ifs at hs with hij
  · cases h3 : sumarElemento G2 (nodoAIndice a.nodoPositivo g)
        (nodoAIndice a.nodoNegativo g) (-y) with
    | error e => rw [h3] at hs; exact absurd hs (by simp)
    | ok G3 =>
        rw [h3] at hs; simp only [except_bind_ok] at hs
        exact step1 G3 s' _ _ _ (step1 G2 G3 _ _ _ hG2 h3) hs
  · rw [← Except.ok.inj hs]; exact hG2

/-- C10: with no voltage sources the pipeline still assembles a
well-formed system: `construirMatrizB` returns the `(numNodes−1) × 0`
matrix, `construirVectorE` the empty `0 × 1` vector, the assembled `A`
equals `G`, `z` equals the current vector `i`, and the analysis result
carries an empty current mapping. -/
theorem sin_fuentesV_estructura (el : List Elemento) (nn g : ℕ) (f : ℚ)
    (hV : ∀ e ∈ el, e.tipo ≠ Tipo.V) :
    construirMatrizB el nn g = .ok (zerosM (nn - 1) 0) ∧
    construirVectorE el = zerosM 0 1 ∧
    (∀ G, construirMatrizG el nn g f = .ok G →
      ensamblarMatrizA G (zerosM (nn - 1) 0)
        (construirMatrizC (zerosM (nn - 1) 0)) (construirMatrizD 0) = G) ∧
    (∀ i : Mat, ensamblarVectorZ i (construirVectorE el) = i) ∧
    (analizarCircuito el nn g f).corrientes = [] := by
  have hF := filter_esFuenteV_nil hV
  refine ⟨?_, ?_, ?_, ?_, ?_⟩
  · unfold construirMatrizB; rw [hF]; rfl
  · unfold construirVectorE; rw [hF]; rfl
  · intro G hG
    have hshape := construirMatrizG_shape hG
    unfold ensamblarMatrizA construirMatrizC construirMatrizD
    rw [mathTranspose_zeros_cols]
    have : zerosM (nn - 1) 0 = List.replicate G.length [] := by
      unfold zerosM; rw [hshape.1]; rfl
    rw [this, zipWith_append_replicate_nil]
    simp [zerosM]
  · intro i
    unfold ensamblarVectorZ construirVectorE
    rw [hF]
    simp [zerosM]
  · unfold analizarCircuito
    cases hN : analizarCircuitoNucleo el nn g f with
    | error e => simp
    | ok r =>
        obtain ⟨x, _, hc⟩ := analizarNucleo_ok_estructura hN
        simp only [hc]
        unfold extraerCorrientes
        rw [hF]
        rfl

/-! ## Admittance and stamping-step facts (C2, C5, C6) -/

theorem nodoAIndice_nonneg_iff {a g : ℕ} : 0 ≤ nodoAIndice a g ↔ a ≠ g := by
  unfold nodoAIndice; split_ifs <;> omega

theorem nodoAIndice_rango {a g nn : ℕ} (ha : a < nn) (hg : g < nn) (hne : a ≠ g) :
    0 ≤ nodoAIndice a g ∧ nodoAIndice a g < ((nn - 1 : ℕ) : ℤ) := by
  unfold nodoAIndice; split_ifs <;> omega

/-- When no zero-ohm resistor is involved, the admittance computed by the
source's `switch` succeeds and equals the spec's admittance. -/
theorem conductanciaDe_ok_total {e : Elemento} {f : ℚ}
    (hnz : ¬(e.tipo = Tipo.R ∧ e.valor = 0)) :
    conductanciaDe e f = .ok (admitanciaSpec e f) := by
  unfold conductanciaDe admitanciaSpec
  cases htipo : e.tipo <;> simp only []
  · rw [if_neg (fun hv => hnz ⟨htipo, hv⟩)]
  · split_ifs <;> rfl
  · split_ifs <;> rfl

theorem conductanciaDe_error_inv {e : Elemento} {f : ℚ} {err : MNAError}
    (h : conductanciaDe e f = .error err) :
    e.tipo = Tipo.R ∧ e.valor = 0 ∧ ∃ msg, err = .degenerateElement msg := by
  unfold conductanciaDe at h
  cases htipo : e.tipo <;> rw [htipo] at h <;> simp only [] at h
  case R =>
    split_ifs at h with hv
    exact ⟨rfl, hv, _, (Except.error.inj h).symm⟩
  all_goals first
    | split_ifs at h
    | exact absurd h (by simp)

theorem conductancia_ok_admitancia {e : Elemento} {f : ℚ} {y : CQ}
    (h : conductanciaDe e f = .ok y) : admitanciaSpec e f = y := by
  unfold conductanciaDe at h
  unfold admitanciaSpec
  cases htipo : e.tipo <;> rw [htipo] at h <;> simp only [] at h ⊢
  case R =>
    split_ifs at h with hv
    exact Except.ok.inj h
  all_goals
    first
    | exact Except.ok.inj h
    | (split_ifs at h ⊢ <;> exact Except.ok.inj h)

/-- Success of a range-checked increment when the indices are in range. -/
theorem sumarElemento_ok_en_rango {M : Mat} {r c : ℕ} (hM : esMatriz M r c)
    {fila col : ℤ} (hf1 : 0 ≤ fila) (hf2 : fila < (r : ℤ))
    (hc1 : 0 ≤ col) (hc2 : col < (c : ℤ)) (v : CQ) :
    sumarElemento M fila col v = .ok (addAt M fila.toNat col.toNat v) ∧
      esMatriz (addAt M fila.toNat col.toNat v) r c := by
  have h1 : numFilas M = r := hM.1
  have hcol : numColumnas M = c := numColumnas_of_esMatriz hM (by omega)
  exact ⟨sumarElemento_eq_ok.mpr ⟨hf1, by omega, hc1, by omega, rfl⟩,
    esMatriz_addAt hM fila.toNat col.toNat (by omega) v⟩

theorem condSumar_ok_inv {M M' : Mat} {c : Prop} [Decidable c] {fila col : ℤ} {v : CQ}
    (h : (if c then sumarElemento M fila col v else .ok M) = .ok M') :
    (if c then addAt M fila.toNat col.toNat v else M) = M' := by
  split_ifs at h ⊢
  · exact ((sumarElemento_eq_ok.mp h).2.2.2.2).symm
  · exact Except.ok.inj h

/-- A successful stamping step of `construirMatrizG` computes exactly the
spec's reference stamp. -/
theorem pasoG_ok_inv {g : ℕ} {f : ℚ} {G : Mat} {e : Elemento} {G' : Mat}
    (h : pasoG g f G e = .ok G') : estampaRefPaso g f G e = G' := by
  unfold pasoG at h
  cases hc : conductanciaDe e f with
  | error err => rw [hc] at h; exact absurd h (by simp)
  | ok y =>
  rw [hc] at h; simp only [except_bind_ok] at h
  cases h1 : (if 0 ≤ nodoAIndice e.nodoPositivo g then
      sumarElemento G (nodoAIndice e.nodoPositivo g) (nodoAIndice e.nodoPositivo g) y
    else .ok G) with
  | error err => rw [h1] at h; exact absurd h (by simp)
  | ok G1 =>
  rw [h1] at h; simp only [except_bind_ok] at h
  cases h2 : (if 0 ≤ nodoAIndice e.nodoNegativo g then
      sumarElemento G1 (nodoAIndice e.nodoNegativo g) (nodoAIndice e.nodoNegativo g) y
    else .ok G1) with
  | error err => rw [h2] at h; exact absurd h (by simp)
  | ok G2 =>
  rw [h2] at h; simp only [except_bind_ok] at h
  simp only [estampaRefPaso]
  rw [conductancia_ok_admitancia hc, condSumar_ok_inv h1, condSumar_ok_inv h2]
  split_ifs at h ⊢ with hij
  · cases h3 : sumarElemento G2 (nodoAIndice e.nodoPositivo g)
        (nodoAIndice e.nodoNegativo g) (-y) with
    | error err => rw [h3] at h; exact absurd h (by simp)
    | ok G3 =>
        rw [h3] at h; simp only [except_bind_ok] at h
        rw [(sumarElemento_eq_ok.mp h3).2.2.2.2.symm,
          (sumarElemento_eq_ok.mp h).2.2.2.2.symm]
  · exact Except.ok.inj h

/-- When the element's terminals are valid nodes and it is not a zero-ohm
resistor, the stamping step succeeds and preserves the matrix shape. -/
theorem pasoG_ok_existe {nn g : ℕ} (f : ℚ) {G : Mat} {e : Elemento}
    (hG : esMatriz G (nn - 1) (nn - 1)) (hg : g < nn)
    (ha : e.nodoPositivo < nn) (hb : e.nodoNegativo < nn)
    (hnz : ¬(e.tipo = Tipo.R ∧ e.valor = 0)) :
    pasoG g f G e = .ok (estampaRefPaso g f G e) ∧
      esMatriz (estampaRefPaso g f G e) (nn - 1) (nn - 1) := by
  unfold pasoG
  rw [conductanciaDe_ok_total hnz]
  simp only [except_bind_ok, estampaRefPaso]
  set y := admitanciaSpec e f with hy
  by_cases hi : 0 ≤ nodoAIndice e.nodoPositivo g <;>
    by_cases hj : 0 ≤ nodoAIndice e.nodoNegativo g
  · have hir := nodoAIndice_rango ha hg (nodoAIndice_nonneg_iff.mp hi)
    have hjr := nodoAIndice_rango hb hg (nodoAIndice_nonneg_iff.mp hj)
    obtain ⟨hs1, hm1⟩ := sumarElemento_ok_en_rango hG hir.1 hir.2 hir.1 hir.2 y
    simp only [if_pos hi, if_pos hj,
      if_pos (⟨hi, hj⟩ : 0 ≤ nodoAIndice e.nodoPositivo g ∧
        0 ≤ nodoAIndice e.nodoNegativo g)]
    rw [hs1]
    simp only [except_bind_ok]
    obtain ⟨hs2, hm2⟩ := sumarElemento_ok_en_rango hm1 hjr.1 hjr.2 hjr.1 hjr.2 y
    rw [hs2]
    simp only [except_bind_ok]
    obtain ⟨hs3, hm3⟩ := sumarElemento_ok_en_rango hm2 hir.1 hir.2 hjr.1 hjr.2 (-y)
    rw [hs3]
    simp only [except_bind_ok]
    obtain ⟨hs4, hm4⟩ := sumarElemento_ok_en_rango hm3 hjr.1 hjr.2 hir.1 hir.2 (-y)
    rw [hs4]
    exact ⟨rfl, hm4⟩
  · have hir := nodoAIndice_rango ha hg (nodoAIndice_nonneg_iff.mp hi)
    obtain ⟨hs1, hm1⟩ := sumarElemento_ok_en_rango hG hir.1 hir.2 hir.1 hir.2 y
    simp only [if_pos hi, if_neg hj,
      if_neg (fun hand : 0 ≤ nodoAIndice e.nodoPositivo g ∧
        0 ≤ nodoAIndice e.nodoNegativo g => hj hand.2)]
    rw [hs1]
    simp only [except_bind_ok]
    exact ⟨by trivial, hm1⟩
  · have hjr := nodoAIndice_rango hb hg (nodoAIndice_nonneg_iff.mp hj)
    obtain ⟨hs2, hm2⟩ := sumarElemento_ok_en_rango hG hjr.1 hjr.2 hjr.1 hjr.2 y
    simp only [if_neg hi, if_pos hj,
      if_neg (fun hand : 0 ≤ nodoAIndice e.nodoPositivo g ∧
        0 ≤ nodoAIndice e.nodoNegativo g => hi hand.1)]
    simp only [except_bind_ok]
    rw [hs2]
    simp only [except_bind_ok]
    exact ⟨by trivial, hm2⟩
  · simp only [if_neg hi, if_neg hj,
      if_neg (fun hand : 0 ≤ nodoAIndice e.nodoPositivo g ∧
        0 ≤ nodoAIndice e.nodoNegativo g => hi hand.1)]
    simp only [except_bind_ok]
    exact ⟨by trivial, hG⟩

/-- A zero-ohm resistor makes the stamping step fail immediately with the
degenerate-element error, before any stamp of that element. -/
theorem pasoG_error_cero (g : ℕ) (f : ℚ) (G : Mat) {e : Elemento}
    (hR : e.tipo = Tipo.R) (hv : e.valor = 0) :
    pasoG g f G e = .error (.degenerateElement
      ("Resistor " ++ e.nombre ++ " tiene valor cero (cortocircuito)")) := by
  unfold pasoG conductanciaDe
  rw [hR]
  simp [hv]

/-- `construirMatrizG` unfolded to its fold (definitional). -/
theorem construirMatrizG_def (el : List Elemento) (nn g : ℕ) (f : ℚ) :
    construirMatrizG el nn g f =
      (el.filter esPasivo).foldlM (pasoG g f) (zerosM (nn - 1) (nn - 1)) := rfl

/-- The conductance fold fails exactly on a zero-valued resistor, always
with a degenerate-element error. -/
theorem foldG_caracterizacion {nn g : ℕ} (f : ℚ) (hg : g < nn) :
    ∀ (l : List Elemento) (G0 : Mat), esMatriz G0 (nn - 1) (nn - 1) →
      (∀ e ∈ l, e.nodoPositivo < nn ∧ e.nodoNegativo < nn) →
      ((∃ err, l.foldlM (pasoG g f) G0 = .error err) ↔
        ∃ e ∈ l, e.tipo = Tipo.R ∧ e.valor = 0) ∧
      (∀ err, l.foldlM (pasoG g f) G0 = .error err →
        ∃ msg, err = MNAError.degenerateElement msg) := by
  intro l
  induction l with
  | nil =>
      intro G0 _ _
      refine ⟨by simp, fun err h => ?_⟩
      rw [List.foldlM_nil] at h
      exact absurd h (by simp)
  | cons a l ih =>
      intro G0 hG0 hnodes
      by_cases hz : a.tipo = Tipo.R ∧ a.valor = 0
      · have herr := pasoG_error_cero g f G0 hz.1 hz.2
        rw [List.foldlM_cons, herr]
        simp only [except_seq_error]
        refine ⟨⟨fun _ => ⟨a, List.mem_cons_self a l, hz⟩, fun _ => ⟨_, rfl⟩⟩,
          fun err h => ⟨_, (Except.error.inj h).symm⟩⟩
      · obtain ⟨hok, hshape⟩ := pasoG_ok_existe f hG0 hg
          (hnodes a (List.mem_cons_self a l)).1 (hnodes a (List.mem_cons_self a l)).2 hz
        rw [List.foldlM_cons, hok]
        simp only [except_seq_ok]
        have ihr := ih (estampaRefPaso g f G0 a) hshape
          (fun e he => hnodes e (List.mem_cons_of_mem a he))
        refine ⟨?_, ihr.2⟩
        rw [ihr.1]
        constructor
        · rintro ⟨e, he, hze⟩
          exact ⟨e, List.mem_cons_of_mem a he, hze⟩
        · rintro ⟨e, he, hze⟩
          rcases List.mem_cons.mp he with rfl | he'
          · exact absurd hze hz
          · exact ⟨e, he', hze⟩

/-- Counterexample for C5: a resistor with the non-positive value −5 Ω is
stamped without any error — `construirMatrizG` succeeds and returns the
matrix `[[−1/5]]`. -/
theorem resistor_negativo_estampado :
    construirMatrizG [resistorNegativo] 2 0 0 = .ok [[CQ.ofRat (-(1 / 5))]] :=
  of_decide_eq_true (by with_unfolding_all rfl)

/-- C5 (amended): during matrix assembly, only a resistor whose value is
exactly 0 raises an error — a `DegenerateElement` error, raised when that
element is processed (its stamp is never applied); all other non-finite or
non-positive passive values are stamped without error.  Stated for
circuits whose element terminals are valid nodes. -/
theorem construirG_error_sii_resistor_cero (el : List Elemento) (nn g : ℕ)
    (f : ℚ) (hg : g < nn)
    (hnodes : ∀ e ∈ el, e.nodoPositivo < nn ∧ e.nodoNegativo < nn) :
    ((∃ err, construirMatrizG el nn g f = .error err) ↔
      ∃ e ∈ el, e.tipo = Tipo.R ∧ e.valor = 0) ∧
    (∀ err, construirMatrizG el nn g f = .error err →
      ∃ msg, err = MNAError.degenerateElement msg) := by
  rw [construirMatrizG_def]
  have base := foldG_caracterizacion f hg (el.filter esPasivo) (zerosM (nn - 1) (nn - 1))
    (esMatriz_zerosM _ _) (fun e he => hnodes e (List.mem_of_mem_filter he))
  refine ⟨?_, base.2⟩
  rw [base.1]
  constructor
  · rintro ⟨e, he, h⟩
    exact ⟨e, List.mem_of_mem_filter he, h⟩
  · rintro ⟨e, he, h⟩
    refine ⟨e, List.mem_filter.mpr ⟨he, ?_⟩, h⟩
    simp [esPasivo, h.1]

/-- Witness for the amended C5: the zero-ohm resistor does make assembly
fail. -/
theorem construirG_error_sii_resistor_cero_testigo :
    ∃ err, construirMatrizG [resistorCero] 2 0 0 = .error err :=
  (construirG_error_sii_resistor_cero [resistorCero] 2 0 0 (by decide)
    (by decide)).1.mpr (by decide)

/-- Lockstep simulation of the monadic fold by the spec's pure fold. -/
theorem foldG_lockstep (g : ℕ) (f : ℚ) :
    ∀ (l : List Elemento) (G0 G : Mat),
      l.foldlM (pasoG g f) G0 = .ok G →
      l.foldl (estampaRefPaso g f) G0 = G := by
  intro l
  induction l with
  | nil =>
      intro G0 G h
      rw [List.foldlM_nil] at h
      rw [List.foldl_nil]
      exact (by simpa using h : G0 = G)
  | cons a l ih =>
      intro G0 G h
      rw [List.foldlM_cons] at h
      cases hS : pasoG g f G0 a with
      | error e => rw [hS] at h; exact absurd h (by simp)
      | ok G1 =>
          rw [hS] at h; simp only [except_seq_ok] at h
          rw [List.foldl_cons, pasoG_ok_inv hS]
          exact ih G1 G h

/-- C2: whenever `construirMatrizG` succeeds, its conductance matrix is
exactly the spec's reference stamping `estampadoReferencia` (zero matrix,
then the nodal stamp of each passive element with reference-node terms
omitted; non-passive elements contribute nothing). -/
theorem construirG_igual_estampadoReferencia (el : List Elemento) (nn g : ℕ)
    (f : ℚ) (G : Mat) (h : construirMatrizG el nn g f = .ok G) :
    G = estampadoReferencia el nn g f := by
  rw [construirMatrizG_def] at h
  exact (foldG_lockstep g f _ _ _ h).symm

/-- Witness for C2: the divider circuit's conductance matrix equals the
reference stamping. -/
theorem construirG_igual_estampadoReferencia_testigo :
    ([[CQ.ofRat (1 / 1000), CQ.ofRat (-(1 / 1000))],
      [CQ.ofRat (-(1 / 1000)), CQ.ofRat (1 / 500)]] : Mat)
      = estampadoReferencia circuitoDivisor 3 0 0 :=
  construirG_igual_estampadoReferencia circuitoDivisor 3 0 0 _
    (of_decide_eq_true (by with_unfolding_all rfl))

/-! ## Preconditions and singularity detection of the solver (C4) -/

/-- C4: `resolverSistema` raises a `DimensionMismatch` error when `A` is
not square or when `z`'s row count differs from `A`'s, and for square `A`
with matching `z` whose determinant magnitude is below the 1e-10
tolerance (`normSq < 1e-20`) it raises a `SingularSystem` error carrying
the circuit-level diagnostic hint (`mensajeSingular`), never returning a
solution vector. -/
theorem resolver_precondiciones (A z : Mat) :
    (numFilas A ≠ numColumnas A →
      ∃ msg, resolverSistema A z = .error (MNAError.dimensionMismatch msg)) ∧
    (numFilas A = numColumnas A → numFilas z ≠ numFilas A →
      ∃ msg, resolverSistema A z = .error (MNAError.dimensionMismatch msg)) ∧
    (numFilas A = numColumnas A → numFilas z = numFilas A →
      CQ.normSq (detM A) < 1 / 10 ^ 20 →
      resolverSistema A z = .error (MNAError.singularSystem
        ("Error al resolver sistema MNA: " ++ mensajeSingular))) := by
  unfold resolverSistema resolverSistemaNucleo
  refine ⟨?_, ?_, ?_⟩
  · intro h
    rw [if_pos h]
    exact ⟨_, rfl⟩
  · intro h1 h2
    rw [if_neg (not_not_intro h1), if_pos h2]
    exact ⟨_, rfl⟩
  · intro h1 h2 h3
    rw [if_neg (not_not_intro h1), if_neg (not_not_intro h2), if_pos h3]
    exact of_decide_eq_true (by with_unfolding_all rfl)

/-- Witness for C4: a 1×2 matrix (not square), a 1×1 system with an empty
right-hand side (row mismatch), and the spec's two-identical-rows matrix
(exactly singular). -/
theorem resolver_precondiciones_testigo :
    (∃ msg, resolverSistema [[1, 1]] [[1]] = .error (MNAError.dimensionMismatch msg)) ∧
    (∃ msg, resolverSistema [[1]] [] = .error (MNAError.dimensionMismatch msg)) ∧
    resolverSistema [[1, 1], [1, 1]] [[1], [1]] = .error (MNAError.singularSystem
      ("Error al resolver sistema MNA: " ++ mensajeSingular)) :=
  ⟨(resolver_precondiciones [[1, 1]] [[1]]).1 (by decide),
   (resolver_precondiciones [[1]] []).2.1 rfl (by decide),
   (resolver_precondiciones [[1, 1], [1, 1]] [[1], [1]]).2.2 rfl rfl
     (of_decide_eq_true (by with_unfolding_all rfl))⟩

/-- Witness for C10 on `circuitoSinV`. -/
theorem sin_fuentesV_estructura_testigo :
    construirMatrizB circuitoSinV 2 0 = .ok (zerosM 1 0) ∧
    construirVectorE circuitoSinV = zerosM 0 1 ∧
    (analizarCircuito circuitoSinV 2 0 0).corrientes = [] :=
  ⟨(sin_fuentesV_estructura circuitoSinV 2 0 0 (by decide)).1,
   (sin_fuentesV_estructura circuitoSinV 2 0 0 (by decide)).2.1,
   (sin_fuentesV_estructura circuitoSinV 2 0 0 (by decide)).2.2.2.2⟩

/-! ## Determinant bridge: `detM` equals Mathlib's determinant -/

theorem listRangeMapSum (m : ℕ) (F : ℕ → CQ) :
    ((List.range m).map F).sum = ∑ j in Finset.range m, F j := by
  induction m with
  | zero => simp
  | succ m ih =>
      rw [List.range_succ, Finset.sum_range_succ, List.map_append,
        List.sum_append, ih]
      simp

theorem getD_eraseIdx_of_lt {α : Type} (l : List α) (i k : ℕ) (d : α)
    (hk : k < i) : (l.eraseIdx i).getD k d = l.getD k d := by
  simp [List.getD_eq_getElem?_getD, List.getElem?_eraseIdx_of_lt l i k hk]

theorem getD_eraseIdx_of_ge {α : Type} (l : List α) (i k : ℕ) (d : α)
    (hk : i ≤ k) : (l.eraseIdx i).getD k d = l.getD (k + 1) d := by
  simp [List.getD_eq_getElem?_getD, List.getElem?_eraseIdx_of_ge l i k hk]

theorem getD_map_getElem {α β : Type} (l : List α) (F : α → β)
    (i : ℕ) (hi : i < l.length) (d : β) :
    (l.map F).getD i d = F (l.get ⟨i, hi⟩) := by
  rw [List.getD_eq_getElem?_getD, List.getElem?_map,
    List.getElem?_eq_getElem hi]
  simp

/-- The list minor (first row dropped, column `j` erased from every other
row) is the Mathlib submatrix used in cofactor expansion along row 0. -/
theorem toMat_minor (r : List CQ) (rs : Mat) (n : ℕ) (hrs : rs.length = n)
    (j : Fin (n + 1)) :
    toMat n (rs.map (fun row => row.eraseIdx (j : ℕ))) =
      (toMat (n + 1) (r :: rs)).submatrix Fin.succ j.succAbove := by
  apply Matrix.ext
  intro i k
  have hi : (i : ℕ) < rs.length := by omega
  have hmap : ((rs.map (fun row => row.eraseIdx (j : ℕ))).getD i []) =
      (rs.get ⟨i, hi⟩).eraseIdx (j : ℕ) := by
    rw [List.getD_eq_getElem?_getD, List.getElem?_map,
      List.getElem?_eq_getElem hi]
    simp
  have hrow : (r :: rs).getD ((i : ℕ) + 1) [] = rs.get ⟨i, hi⟩ := by
    show rs.getD (i : ℕ) [] = rs.get ⟨i, hi⟩
    rw [List.getD_eq_getElem?_getD, List.getElem?_eq_getElem hi]
    simp
  show entryM (rs.map (fun row => row.eraseIdx (j : ℕ))) i k
    = entryM (r :: rs) (Fin.succ i) (j.succAbove k)
  unfold entryM
  rw [hmap, Fin.val_succ, hrow]
  rcases lt_or_ge (k : ℕ) (j : ℕ) with hkj | hkj
  · rw [getD_eraseIdx_of_lt _ _ _ _ hkj,
      Fin.succAbove_of_castSucc_lt j k (by rw [Fin.lt_def]; simpa using hkj)]
    simp
  · rw [getD_eraseIdx_of_ge _ _ _ _ hkj,
      Fin.succAbove_of_le_castSucc j k (by rw [Fin.le_def]; simpa using hkj)]
    simp

theorem detFuel_eq_det :
    ∀ (fuel N : ℕ) (A : Mat), N ≤ fuel → esMatriz A N N →
      detFuel fuel A = (toMat N A).det := by
  intro fuel
  induction fuel with
  | zero =>
      intro N A hN hA
      obtain rfl : N = 0 := Nat.le_zero.mp hN
      simp [detFuel, Matrix.det_isEmpty]
  | succ fuel ih =>
      intro N A hN hA
      cases A with
      | nil =>
          obtain rfl : N = 0 := by simpa using hA.1.symm
          simp [detFuel, Matrix.det_isEmpty]
      | cons r rs =>
          obtain ⟨n, rfl⟩ : ∃ n, N = n + 1 :=
            ⟨rs.length, by simpa using hA.1.symm⟩
          have hrs : rs.length = n := by simpa using hA.1
          have hr : r.length = n + 1 := hA.2 r (List.mem_cons_self r rs)
          simp only [detFuel]
          rw [hr, listRangeMapSum, Matrix.det_succ_row_zero,
            ← Fin.sum_univ_eq_sum_range
              (fun j => (-1 : CQ) ^ j * r.getD j 0 *
                detFuel fuel (rs.map (fun row => row.eraseIdx j))) (n + 1)]
          apply Finset.sum_congr rfl
          intro j _
          have hminor : esMatriz (rs.map (fun row => row.eraseIdx (j : ℕ))) n n := by
            constructor
            · simpa using hrs
            · intro row hrow
              obtain ⟨row0, hrow0, rfl⟩ := List.mem_map.mp hrow
              have : row0.length = n + 1 :=
                hA.2 row0 (List.mem_cons_of_mem r hrow0)
              rw [List.length_eraseIdx_of_lt (by omega)]
              omega
          rw [ih n _ (by omega) hminor, toMat_minor r rs n hrs j]
          rfl

/-- `math.det` agrees with Mathlib's determinant on square matrices. -/
theorem detM_eq_det {N : ℕ} {A : Mat} (hA : esMatriz A N N) :
    detM A = (toMat N A).det := by
  unfold detM
  rw [hA.1]
  exact detFuel_eq_det N N A le_rfl hA

/-! ## Entry-level lemmas and weighted sums (C6) -/

theorem getD_set_self' {α : Type} (l : List α) (i : ℕ) (a d : α)
    (h : i < l.length) : (l.set i a).getD i d = a := by
  rw [List.getD_eq_getElem?_getD, List.getElem?_set_self h]
  rfl

theorem getD_set_ne' {α : Type} (l : List α) (i j : ℕ) (a d : α)
    (h : i ≠ j) : (l.set i a).getD j d = l.getD j d := by
  rw [List.getD_eq_getElem?_getD, List.getElem?_set_ne h,
    ← List.getD_eq_getElem?_getD]

theorem entryM_zerosM (r c i j : ℕ) : entryM (zerosM r c) i j = 0 := by
  unfold entryM zerosM
  by_cases hi : i < r <;> by_cases hj : j < c <;>
    simp [List.getD_eq_getElem?_getD, List.getElem?_replicate, hi, hj]

theorem entryM_setAt {M : Mat} {r c : ℕ} (hM : esMatriz M r c) (r0 c0 : ℕ)
    (hr0 : r0 < r) (v : CQ) (ri ci : ℕ) :
    entryM (setAt M r0 c0 v) ri ci =
      if ri = r0 ∧ ci = c0 ∧ c0 < c then v else entryM M ri ci := by
  unfold setAt entryM
  have hlen : r0 < M.length := hM.1 ▸ hr0
  have hrowlen : (M.getD r0 []).length = c := getD_length_of_esMatriz hM hr0
  by_cases hri : ri = r0
  · subst hri
    rw [getD_set_self' _ _ _ _ hlen]
    by_cases hci : ci = c0
    · subst hci
      by_cases hc0 : ci < c
      · rw [if_pos ⟨rfl, rfl, hc0⟩, getD_set_self' _ _ _ _ (by omega)]
      · rw [if_neg (fun h => hc0 h.2.2), List.set_eq_of_length_le (by omega)]
    · rw [if_neg (fun h => hci h.2.1),
        getD_set_ne' _ _ _ _ _ (fun h => hci h.symm)]
  · rw [if_neg (fun h => hri h.1),
      getD_set_ne' _ _ _ _ _ (fun h => hri h.symm)]

theorem entryM_addAt {M : Mat} {r c : ℕ} (hM : esMatriz M r c) (r0 c0 : ℕ)
    (hr0 : r0 < r) (v : CQ) (ri ci : ℕ) :
    entryM (addAt M r0 c0 v) ri ci =
      if ri = r0 ∧ ci = c0 ∧ c0 < c then entryM M r0 c0 + v
      else entryM M ri ci := by
  unfold addAt
  rw [entryM_setAt hM r0 c0 hr0 (entryM M r0 c0 + v) ri ci]

/-- Weighted sum of row `r` over the first `c` columns. -/
def wsum (M : Mat) (c : ℕ) (w : ℕ → CQ) (r : ℕ) : CQ :=
  ∑ q in Finset.range c, entryM M r q * w q

/-- Weighted sum of column `s` over the first `n` rows. -/
def colsumB (B : Mat) (n : ℕ) (w : ℕ → CQ) (s : ℕ) : CQ :=
  ∑ k in Finset.range n, entryM B k s * w k

theorem wsum_zerosM (r c : ℕ) (w : ℕ → CQ) (q : ℕ) :
    wsum (zerosM r c) c w q = 0 := by
  unfold wsum
  refine Finset.sum_eq_zero fun k _ => ?_
  rw [entryM_zerosM]
  ring

theorem wsum_addAt {M : Mat} {n : ℕ} (hM : esMatriz M n n) (r0 c0 : ℕ)
    (hr0 : r0 < n) (hc0 : c0 < n) (v : CQ) (w : ℕ → CQ) (r : ℕ) :
    wsum (addAt M r0 c0 v) n w r
      = wsum M n w r + (if r = r0 then v * w c0 else 0) := by
  unfold wsum
  by_cases hr : r = r0
  · subst hr
    rw [if_pos rfl]
    have hterm : ∀ q ∈ Finset.range n,
        entryM (addAt M r c0 v) r q * w q
          = entryM M r q * w q + (if q = c0 then v * w q else 0) := by
      intro q _
      rw [entryM_addAt hM r c0 hr0 v r q]
      by_cases hqc : q = c0
      · subst hqc
        rw [if_pos ⟨rfl, rfl, hc0⟩, if_pos rfl]
        ring
      · rw [if_neg (fun h => hqc h.2.1), if_neg hqc]
        ring
    rw [Finset.sum_congr rfl hterm, Finset.sum_add_distrib]
    congr 1
    rw [Finset.sum_ite_eq' (Finset.range n) c0 (fun q => v * w q),
      if_pos (Finset.mem_range.mpr hc0)]
  · rw [if_neg hr, add_zero]
    refine Finset.sum_congr rfl fun q _ => ?_
    rw [entryM_addAt hM r0 c0 hr0 v r q, if_neg (fun h => hr h.1)]

theorem colsumB_setAt {B : Mat} {n m : ℕ} (hB : esMatriz B n m) (r0 c0 : ℕ)
    (hr0 : r0 < n) (hc0 : c0 < m) (v : CQ) (w : ℕ → CQ) (s : ℕ) :
    colsumB (setAt B r0 c0 v) n w s
      = colsumB B n w s
        + (if s = c0 then (v - entryM B r0 c0) * w r0 else 0) := by
  unfold colsumB
  by_cases hs : s = c0
  · subst hs
    rw [if_pos rfl]
    have hterm : ∀ k ∈ Finset.range n,
        entryM (setAt B r0 s v) k s * w k
          = entryM B k s * w k
            + (if k = r0 then (v - entryM B r0 s) * w k else 0) := by
      intro k _
      rw [entryM_setAt hB r0 s hr0 v k s]
      by_cases hk : k = r0
      · subst hk
        rw [if_pos ⟨rfl, rfl, hc0⟩, if_pos rfl]
        ring
      · rw [if_neg (fun h => hk h.1), if_neg hk]
        ring
    rw [Finset.sum_congr rfl hterm, Finset.sum_add_distrib]
    congr 1
    rw [Finset.sum_ite_eq' (Finset.range n) r0
      (fun k => (v - entryM B r0 s) * w k), if_pos (Finset.mem_range.mpr hr0)]
  · rw [if_neg hs, add_zero]
    refine Finset.sum_congr rfl fun k _ => ?_
    rw [entryM_setAt hB r0 c0 hr0 v k s, if_neg (fun h => hs h.2.1)]

/-- Columns other than the one written keep their entries under `setAt`. -/
theorem entryM_setAt_other_col {B : Mat} {n m : ℕ} (hB : esMatriz B n m)
    (r0 c0 : ℕ) (hr0 : r0 < n) (v : CQ) (k s : ℕ) (hs : s ≠ c0) :
    entryM (setAt B r0 c0 v) k s = entryM B k s := by
  rw [entryM_setAt hB r0 c0 hr0 v k s, if_neg (fun h => hs h.2.1)]

/-! ## The weighted rows of the stamped conductance matrix sum to zero
when the weight distinguishes reachable from unreachable nodes (C6) -/

theorem nodoReal_nodoAIndice {nodo g : ℕ} (h : nodo ≠ g) :
    nodoReal (nodoAIndice nodo g).toNat g = nodo := by
  simp only [nodoAIndice, nodoReal]
  split_ifs <;> omega

theorem nodoAIndice_toNat_ne {a b g : ℕ} (ha : a ≠ g) (hb : b ≠ g)
    (hab : a ≠ b) : (nodoAIndice a g).toNat ≠ (nodoAIndice b g).toNat := by
  simp only [nodoAIndice]
  split_ifs <;> omega

theorem nodoAIndice_neg_of_ground {g : ℕ} : ¬ 0 ≤ nodoAIndice g g := by
  simp [nodoAIndice]

/-- One reference stamp keeps every weighted row sum at zero. -/
theorem estampaRef_wsum {el : List Elemento} {nn g : ℕ} {f : ℚ} {w : ℕ → CQ}
    (hg : g < nn)
    (hW1 : ∀ a : ℕ, a < nn → a ≠ g → Alcanzable el g a →
      w (nodoAIndice a g).toNat = 0)
    (hW2 : ∀ a b : ℕ, a < nn → b < nn → a ≠ g → b ≠ g → Conecta el a b →
      w (nodoAIndice a g).toNat = w (nodoAIndice b g).toNat)
    {G : Mat} (hG : esMatriz G (nn - 1) (nn - 1))
    (hsum : ∀ r, wsum G (nn - 1) w r = 0)
    {e : Elemento} (hel : e ∈ el)
    (ha : e.nodoPositivo < nn) (hb : e.nodoNegativo < nn) :
    ∀ r, wsum (estampaRefPaso g f G e) (nn - 1) w r = 0 := by
  intro r
  simp only [estampaRefPaso]
  set y := admitanciaSpec e f with hy
  by_cases hia : e.nodoPositivo = g <;> by_cases hib : e.nodoNegativo = g
  · have hi : ¬ 0 ≤ nodoAIndice e.nodoPositivo g := by
      rw [hia]; exact nodoAIndice_neg_of_ground
    have hj : ¬ 0 ≤ nodoAIndice e.nodoNegativo g := by
      rw [hib]; exact nodoAIndice_neg_of_ground
    simp only [if_neg hi, if_neg hj,
      if_neg (fun h : 0 ≤ nodoAIndice e.nodoPositivo g ∧
        0 ≤ nodoAIndice e.nodoNegativo g => hi h.1)]
    exact hsum r
  · have hi : ¬ 0 ≤ nodoAIndice e.nodoPositivo g := by
      rw [hia]; exact nodoAIndice_neg_of_ground
    have hj : 0 ≤ nodoAIndice e.nodoNegativo g := nodoAIndice_nonneg_iff.mpr hib
    have hjr := nodoAIndice_rango hb hg hib
    simp only [if_neg hi, if_pos hj,
      if_neg (fun h : 0 ≤ nodoAIndice e.nodoPositivo g ∧
        0 ≤ nodoAIndice e.nodoNegativo g => hi h.1)]
    have hAlc : Alcanzable el g e.nodoNegativo :=
      Alcanzable.step Alcanzable.base ⟨e, hel, Or.inl ⟨hia, rfl⟩⟩
    rw [wsum_addAt hG (nodoAIndice e.nodoNegativo g).toNat
      (nodoAIndice e.nodoNegativo g).toNat (by omega) (by omega) y w r, hsum r,
      hW1 _ hb hib hAlc]
    simp
  · have hi : 0 ≤ nodoAIndice e.nodoPositivo g := nodoAIndice_nonneg_iff.mpr hia
    have hj : ¬ 0 ≤ nodoAIndice e.nodoNegativo g := by
      rw [hib]; exact nodoAIndice_neg_of_ground
    have hir := nodoAIndice_rango ha hg hia
    simp only [if_pos hi, if_neg hj,
      if_neg (fun h : 0 ≤ nodoAIndice e.nodoPositivo g ∧
        0 ≤ nodoAIndice e.nodoNegativo g => hj h.2)]
    have hAlc : Alcanzable el g e.nodoPositivo :=
      Alcanzable.step Alcanzable.base ⟨e, hel, Or.inr ⟨rfl, hib⟩⟩
    rw [wsum_addAt hG (nodoAIndice e.nodoPositivo g).toNat
      (nodoAIndice e.nodoPositivo g).toNat (by omega) (by omega) y w r, hsum r,
      hW1 _ ha hia hAlc]
    simp
  · have hi : 0 ≤ nodoAIndice e.nodoPositivo g := nodoAIndice_nonneg_iff.mpr hia
    have hj : 0 ≤ nodoAIndice e.nodoNegativo g := nodoAIndice_nonneg_iff.mpr hib
    have hir := nodoAIndice_rango ha hg hia
    have hjr := nodoAIndice_rango hb hg hib
    have hww : w (nodoAIndice e.nodoPositivo g).toNat
        = w (nodoAIndice e.nodoNegativo g).toNat :=
      hW2 _ _ ha hb hia hib ⟨e, hel, Or.inl ⟨rfl, rfl⟩⟩
    simp only [if_pos hi, if_pos hj, if_pos (⟨hi, hj⟩ :
      0 ≤ nodoAIndice e.nodoPositivo g ∧ 0 ≤ nodoAIndice e.nodoNegativo g)]
    have h1 := esMatriz_addAt hG (nodoAIndice e.nodoPositivo g).toNat
      (nodoAIndice e.nodoPositivo g).toNat (by omega) y
    have h2 := esMatriz_addAt h1 (nodoAIndice e.nodoNegativo g).toNat
      (nodoAIndice e.nodoNegativo g).toNat (by omega) y
    have h3 := esMatriz_addAt h2 (nodoAIndice e.nodoPositivo g).toNat
      (nodoAIndice e.nodoNegativo g).toNat (by omega) (-y)
    rw [wsum_addAt h3 (nodoAIndice e.nodoNegativo g).toNat
        (nodoAIndice e.nodoPositivo g).toNat (by omega) (by omega) (-y) w r,
      wsum_addAt h2 (nodoAIndice e.nodoPositivo g).toNat
        (nodoAIndice e.nodoNegativo g).toNat (by omega) (by omega) (-y) w r,
      wsum_addAt h1 (nodoAIndice e.nodoNegativo g).toNat
        (nodoAIndice e.nodoNegativo g).toNat (by omega) (by omega) y w r,
      wsum_addAt hG (nodoAIndice e.nodoPositivo g).toNat
        (nodoAIndice e.nodoPositivo g).toNat (by omega) (by omega) y w r, hsum r]
    by_cases hr1 : r = (nodoAIndice e.nodoPositivo g).toNat <;>
      by_cases hr2 : r = (nodoAIndice e.nodoNegativo g).toNat
    · have heq : (nodoAIndice e.nodoPositivo g).toNat
          = (nodoAIndice e.nodoNegativo g).toNat := by omega
      simp [hr1, hr2, heq, hww]
    · subst hr1
      simp [hr2, hww]
    · subst hr2
      simp [hr1, hww]
    · simp [hr1, hr2]

/-- `construirMatrizG` succeeds and its rows, weighted by any reachability
weight, sum to zero. -/
theorem construirG_ok_con_sumas {el : List Elemento} {nn g : ℕ} {f : ℚ}
    {w : ℕ → CQ} (hg : g < nn)
    (hW1 : ∀ a : ℕ, a < nn → a ≠ g → Alcanzable el g a →
      w (nodoAIndice a g).toNat = 0)
    (hW2 : ∀ a b : ℕ, a < nn → b < nn → a ≠ g → b ≠ g → Conecta el a b →
      w (nodoAIndice a g).toNat = w (nodoAIndice b g).toNat)
    (hnodes : ∀ e ∈ el, e.nodoPositivo < nn ∧ e.nodoNegativo < nn)
    (hR : ∀ e ∈ el, e.tipo = Tipo.R → e.valor ≠ 0) :
    ∃ G, construirMatrizG el nn g f = .ok G ∧ esMatriz G (nn - 1) (nn - 1) ∧
      ∀ r, wsum G (nn - 1) w r = 0 := by
  rw [construirMatrizG_def]
  obtain ⟨G, hok, hsh, hs⟩ := foldlM_ok_existe (pasoG g f)
    (fun M => esMatriz M (nn - 1) (nn - 1) ∧ ∀ r, wsum M (nn - 1) w r = 0)
    (el.filter esPasivo) (zerosM (nn - 1) (nn - 1))
    ⟨esMatriz_zerosM _ _, fun r => wsum_zerosM _ _ w r⟩
    (fun s a hae hPs => by
      have hmem := List.mem_of_mem_filter hae
      have hnod := hnodes a hmem
      have hnz : ¬(a.tipo = Tipo.R ∧ a.valor = 0) :=
        fun hz => hR a hmem hz.1 hz.2
      obtain ⟨hok, hsh⟩ := pasoG_ok_existe f hPs.1 hg hnod.1 hnod.2 hnz
      exact ⟨_, hok, hsh,
        estampaRef_wsum hg hW1 hW2 hPs.1 hPs.2 hmem hnod.1 hnod.2⟩)
  exact ⟨G, hok, hsh, hs⟩

/-! ## The voltage-source incidence matrix has zero weighted column sums (C6) -/

/-- Success of a range-checked `setAt` when the indices are in range. -/
theorem establecerElemento_ok_en_rango {M : Mat} {r c : ℕ} (hM : esMatriz M r c)
    {fila col : ℤ} (hf1 : 0 ≤ fila) (hf2 : fila < (r : ℤ))
    (hc1 : 0 ≤ col) (hc2 : col < (c : ℤ)) (v : CQ) :
    establecerElemento M fila col v = .ok (setAt M fila.toNat col.toNat v) ∧
      esMatriz (setAt M fila.toNat col.toNat v) r c := by
  have h1 : numFilas M = r := hM.1
  have hcol : numColumnas M = c := numColumnas_of_esMatriz hM (by omega)
  exact ⟨establecerElemento_eq_ok.mpr ⟨hf1, by omega, hc1, by omega, rfl⟩,
    esMatriz_setAt hM fila.toNat col.toNat (by omega) v⟩

/-- One `pasoB` step at column `t` succeeds and keeps: columns from `t+1`
on all zero, weighted column sums zero for columns up to `t`. -/
theorem pasoB_ok_invariante {el : List Elemento} {nn g : ℕ} {w : ℕ → CQ} {m : ℕ}
    (hg : g < nn)
    (hW1 : ∀ a : ℕ, a < nn → a ≠ g → Alcanzable el g a →
      w (nodoAIndice a g).toNat = 0)
    (hW2 : ∀ a b : ℕ, a < nn → b < nn → a ≠ g → b ≠ g → Conecta el a b →
      w (nodoAIndice a g).toNat = w (nodoAIndice b g).toNat)
    {B : Mat} (hB : esMatriz B (nn - 1) m) {t : ℕ} (ht : t < m)
    (hzero : ∀ s k, t ≤ s → entryM B k s = 0)
    (hcol : ∀ s, s < t → colsumB B (nn - 1) w s = 0)
    {e : Elemento} (hel : e ∈ el)
    (ha : e.nodoPositivo < nn) (hb : e.nodoNegativo < nn)
    (hab : e.nodoPositivo ≠ e.nodoNegativo) :
    ∃ B', pasoB g B (t, e) = .ok B' ∧ esMatriz B' (nn - 1) m ∧
      (∀ s k, t + 1 ≤ s → entryM B' k s = 0) ∧
      (∀ s, s < t + 1 → colsumB B' (nn - 1) w s = 0) := by
  have hcolt : ∀ k, entryM B k t = 0 := fun k => hzero t k le_rfl
  have hcolsumt : colsumB B (nn - 1) w t = 0 := by
    unfold colsumB
    exact Finset.sum_eq_zero fun k _ => by rw [hcolt k]; ring
  unfold pasoB
  by_cases hia : e.nodoPositivo = g <;> by_cases hib : e.nodoNegativo = g
  · exact absurd (hia.trans hib.symm) hab
  · -- positive terminal is ground: only the −1 write at the negative row
    have hi : ¬ 0 ≤ nodoAIndice e.nodoPositivo g := by
      rw [hia]; exact nodoAIndice_neg_of_ground
    have hj : 0 ≤ nodoAIndice e.nodoNegativo g := nodoAIndice_nonneg_iff.mpr hib
    have hjr := nodoAIndice_rango hb hg hib
    obtain ⟨hs1, hm1⟩ := establecerElemento_ok_en_rango hB hjr.1 hjr.2
      (by omega : (0:ℤ) ≤ (t : ℤ)) (by omega) (-1)
    rw [Int.toNat_ofNat] at hs1 hm1
    simp only [if_neg hi, except_bind_ok, if_pos hj, hs1]
    have hAlc : Alcanzable el g e.nodoNegativo :=
      Alcanzable.step Alcanzable.base ⟨e, hel, Or.inl ⟨hia, rfl⟩⟩
    have hwj : w (nodoAIndice e.nodoNegativo g).toNat = 0 := hW1 _ hb hib hAlc
    refine ⟨_, rfl, hm1, ?_, ?_⟩
    · intro s k hs
      rw [entryM_setAt hB (nodoAIndice e.nodoNegativo g).toNat t
        (by omega) (-1) k s, if_neg (fun h => by omega)]
      exact hzero s k (by omega)
    · intro s hs
      rw [colsumB_setAt hB (nodoAIndice e.nodoNegativo g).toNat t
        (by omega) ht (-1) w s]
      rcases Nat.lt_or_ge s t with hst | hst
      · rw [hcol s hst, if_neg (by omega)]
        ring
      · have hseq : s = t := by omega
        subst hseq
        rw [hcolsumt, if_pos rfl, hcolt, hwj]
        ring
  · -- negative terminal is ground: only the +1 write at the positive row
    have hi : 0 ≤ nodoAIndice e.nodoPositivo g := nodoAIndice_nonneg_iff.mpr hia
    have hj : ¬ 0 ≤ nodoAIndice e.nodoNegativo g := by
      rw [hib]; exact nodoAIndice_neg_of_ground
    have hir := nodoAIndice_rango ha hg hia
    obtain ⟨hs1, hm1⟩ := establecerElemento_ok_en_rango hB hir.1 hir.2
      (by omega : (0:ℤ) ≤ (t : ℤ)) (by omega) 1
    rw [Int.toNat_ofNat] at hs1 hm1
    simp only [if_pos hi, hs1, except_bind_ok, if_neg hj]
    have hAlc : Alcanzable el g e.nodoPositivo :=
      Alcanzable.step Alcanzable.base ⟨e, hel, Or.inr ⟨rfl, hib⟩⟩
    have hwi : w (nodoAIndice e.nodoPositivo g).toNat = 0 := hW1 _ ha hia hAlc
    refine ⟨_, rfl, hm1, ?_, ?_⟩
    · intro s k hs
      rw [entryM_setAt hB (nodoAIndice e.nodoPositivo g).toNat t
        (by omega) 1 k s, if_neg (fun h => by omega)]
      exact hzero s k (by omega)
    · intro s hs
      rw [colsumB_setAt hB (nodoAIndice e.nodoPositivo g).toNat t
        (by omega) ht 1 w s]
      rcases Nat.lt_or_ge s t with hst | hst
      · rw [hcol s hst, if_neg (by omega)]
        ring
      · have hseq : s = t := by omega
        subst hseq
        rw [hcolsumt, if_pos rfl, hcolt, hwi]
        ring
  · -- both terminals are non-ground rows: +1 then −1, at distinct rows
    have hi : 0 ≤ nodoAIndice e.nodoPositivo g := nodoAIndice_nonneg_iff.mpr hia
    have hj : 0 ≤ nodoAIndice e.nodoNegativo g := nodoAIndice_nonneg_iff.mpr hib
    have hir := nodoAIndice_rango ha hg hia
    have hjr := nodoAIndice_rango hb hg hib
    have hne := nodoAIndice_toNat_ne hia hib hab
    have hww : w (nodoAIndice e.nodoPositivo g).toNat
        = w (nodoAIndice e.nodoNegativo g).toNat :=
      hW2 _ _ ha hb hia hib ⟨e, hel, Or.inl ⟨rfl, rfl⟩⟩
    obtain ⟨hs1, hm1⟩ := establecerElemento_ok_en_rango hB hir.1 hir.2
      (by omega : (0:ℤ) ≤ (t : ℤ)) (by omega) 1
    rw [Int.toNat_ofNat] at hs1 hm1
    obtain ⟨hs2, hm2⟩ := establecerElemento_ok_en_rango hm1 hjr.1 hjr.2
      (by omega : (0:ℤ) ≤ (t : ℤ)) (by omega) (-1)
    rw [Int.toNat_ofNat] at hs2 hm2
    simp only [if_pos hi, hs1, except_bind_ok, if_pos hj, hs2]
    refine ⟨_, rfl, hm2, ?_, ?_⟩
    · intro s k hs
      rw [entryM_setAt hm1 (nodoAIndice e.nodoNegativo g).toNat t
          (by omega) (-1) k s, if_neg (fun h => by omega),
        entryM_setAt hB (nodoAIndice e.nodoPositivo g).toNat t
          (by omega) 1 k s, if_neg (fun h => by omega)]
      exact hzero s k (by omega)
    · intro s hs
      rw [colsumB_setAt hm1 (nodoAIndice e.nodoNegativo g).toNat t
          (by omega) ht (-1) w s,
        colsumB_setAt hB (nodoAIndice e.nodoPositivo g).toNat t
          (by omega) ht 1 w s]
      rcases Nat.lt_or_ge s t with hst | hst
      · rw [hcol s hst, if_neg (by omega), if_neg (by omega)]
        ring
      · have hseq : s = t := by omega
        subst hseq
        rw [hcolsumt, if_pos rfl, if_pos rfl, hcolt,
          entryM_setAt hB (nodoAIndice e.nodoPositivo g).toNat s
            (by omega) 1 (nodoAIndice e.nodoNegativo g).toNat s,
          if_neg (fun h => hne h.1.symm), hcolt, hww]
        ring

/-- Folding `pasoB` over indexed voltage sources keeps all weighted
column sums at zero. -/
theorem foldB_ok {el : List Elemento} {nn g : ℕ} {w : ℕ → CQ} {m : ℕ}
    (hg : g < nn)
    (hW1 : ∀ a : ℕ, a < nn → a ≠ g → Alcanzable el g a →
      w (nodoAIndice a g).toNat = 0)
    (hW2 : ∀ a b : ℕ, a < nn → b < nn → a ≠ g → b ≠ g → Conecta el a b →
      w (nodoAIndice a g).toNat = w (nodoAIndice b g).toNat) :
    ∀ (fv : List Elemento) (t : ℕ) (B0 : Mat),
      (∀ e ∈ fv, e ∈ el ∧ e.nodoPositivo < nn ∧ e.nodoNegativo < nn ∧
        e.nodoPositivo ≠ e.nodoNegativo) →
      t + fv.length ≤ m →
      esMatriz B0 (nn - 1) m →
      (∀ s k, t ≤ s → entryM B0 k s = 0) →
      (∀ s, s < t → colsumB B0 (nn - 1) w s = 0) →
      ∃ B, (List.enumFrom t fv).foldlM (pasoB g) B0 = .ok B ∧
        esMatriz B (nn - 1) m ∧
        ∀ s, s < t + fv.length → colsumB B (nn - 1) w s = 0 := by
  intro fv
  induction fv with
  | nil =>
      intro t B0 _ _ hB0 _ hcol
      exact ⟨B0, rfl, hB0, fun s hs => hcol s (by simpa using hs)⟩
  | cons e fv ih =>
      intro t B0 hfv hlen hB0 hzero hcol
      have he := hfv e (List.mem_cons_self e fv)
      obtain ⟨B1, hok1, hB1, hzero1, hcol1⟩ :=
        pasoB_ok_invariante hg hW1 hW2 hB0 (by simp at hlen; omega)
          hzero hcol he.1 he.2.1 he.2.2.1 he.2.2.2
      obtain ⟨B, hok, hBm, hcolm⟩ := ih (t + 1) B1
        (fun e' he' => hfv e' (List.mem_cons_of_mem e he'))
        (by simp at hlen ⊢; omega) hB1 hzero1 hcol1
      refine ⟨B, ?_, hBm, fun s hs => hcolm s (by simp at hs ⊢; omega)⟩
      rw [List.enumFrom_cons, List.foldlM_cons, hok1]
      simpa using hok

/-- `construirMatrizB` succeeds with an `(n × m)` matrix all of whose
weighted column sums vanish. -/
theorem construirB_ok_con_sumas {el : List Elemento} {nn g : ℕ} {w : ℕ → CQ}
    (hg : g < nn)
    (hW1 : ∀ a : ℕ, a < nn → a ≠ g → Alcanzable el g a →
      w (nodoAIndice a g).toNat = 0)
    (hW2 : ∀ a b : ℕ, a < nn → b < nn → a ≠ g → b ≠ g → Conecta el a b →
      w (nodoAIndice a g).toNat = w (nodoAIndice b g).toNat)
    (hnodes : ∀ e ∈ el, e.nodoPositivo < nn ∧ e.nodoNegativo < nn)
    (hab : ∀ e ∈ el, e.nodoPositivo ≠ e.nodoNegativo) :
    ∃ B, construirMatrizB el nn g = .ok B ∧
      esMatriz B (nn - 1) (el.filter esFuenteV).length ∧
      ∀ s, s < (el.filter esFuenteV).length →
        colsumB B (nn - 1) w s = 0 := by
  unfold construirMatrizB
  by_cases hm : (el.filter esFuenteV).length = 0
  · rw [if_pos hm]
    refine ⟨_, rfl, ?_, fun s hs => absurd hs (by omega)⟩
    rw [hm]
    exact esMatriz_zerosM _ _
  · rw [if_neg hm]
    obtain ⟨B, hok, hBm, hcolm⟩ := foldB_ok hg hW1 hW2 (el.filter esFuenteV) 0
      (zerosM (nn - 1) (el.filter esFuenteV).length)
      (fun e he => ⟨List.mem_of_mem_filter he,
        (hnodes e (List.mem_of_mem_filter he)).1,
        (hnodes e (List.mem_of_mem_filter he)).2,
        hab e (List.mem_of_mem_filter he)⟩)
      (by omega) (esMatriz_zerosM _ _)
      (fun s k _ => entryM_zerosM _ _ k s)
      (fun s hs => absurd hs (by omega))
    exact ⟨B, by simpa [List.enum] using hok, hBm,
      fun s hs => hcolm s (by omega)⟩

/-- One `pasoI` step succeeds and keeps the `(n × 1)` shape. -/
theorem pasoI_ok_existe {nn g : ℕ} {i : Mat} {e : Elemento}
    (hi : esMatriz i (nn - 1) 1) (hg : g < nn)
    (ha : e.nodoPositivo < nn) (hb : e.nodoNegativo < nn) :
    ∃ i', pasoI g i e = .ok i' ∧ esMatriz i' (nn - 1) 1 := by
  simp only [pasoI]
  by_cases hia : 0 ≤ nodoAIndice e.nodoPositivo g <;>
    by_cases hib : 0 ≤ nodoAIndice e.nodoNegativo g
  · have hir := nodoAIndice_rango ha hg (nodoAIndice_nonneg_iff.mp hia)
    have hjr := nodoAIndice_rango hb hg (nodoAIndice_nonneg_iff.mp hib)
    obtain ⟨hs1, hm1⟩ := sumarElemento_ok_en_rango hi hir.1 hir.2
      (le_refl (0:ℤ)) (by omega) (CQ.ofRat e.valor)
    obtain ⟨hs2, hm2⟩ := sumarElemento_ok_en_rango hm1 hjr.1 hjr.2
      (le_refl (0:ℤ)) (by omega) (-CQ.ofRat e.valor)
    rw [if_pos hia, hs1]
    simp only [except_bind_ok]
    rw [if_pos hib, hs2]
    exact ⟨_, rfl, hm2⟩
  · have hir := nodoAIndice_rango ha hg (nodoAIndice_nonneg_iff.mp hia)
    obtain ⟨hs1, hm1⟩ := sumarElemento_ok_en_rango hi hir.1 hir.2
      (le_refl (0:ℤ)) (by omega) (CQ.ofRat e.valor)
    rw [if_pos hia, hs1]
    simp only [except_bind_ok]
    rw [if_neg hib]
    exact ⟨_, rfl, hm1⟩
  · have hjr := nodoAIndice_rango hb hg (nodoAIndice_nonneg_iff.mp hib)
    obtain ⟨hs2, hm2⟩ := sumarElemento_ok_en_rango hi hjr.1 hjr.2
      (le_refl (0:ℤ)) (by omega) (-CQ.ofRat e.valor)
    rw [if_neg hia]
    simp only [except_bind_ok]
    rw [if_pos hib, hs2]
    exact ⟨_, rfl, hm2⟩
  · rw [if_neg hia]
    simp only [except_bind_ok]
    rw [if_neg hib]
    exact ⟨_, rfl, hi⟩

/-- `construirVectorI` succeeds with an `(n × 1)` column. -/
theorem construirVectorI_ok {el : List Elemento} {nn g : ℕ} (hg : g < nn)
    (hnodes : ∀ e ∈ el, e.nodoPositivo < nn ∧ e.nodoNegativo < nn) :
    ∃ i, construirVectorI el nn g = .ok i ∧ esMatriz i (nn - 1) 1 := by
  unfold construirVectorI
  obtain ⟨i, hok, hsh⟩ := foldlM_ok_existe (pasoI g)
    (fun M => esMatriz M (nn - 1) 1) (el.filter esFuenteI)
    (zerosM (nn - 1) 1) (esMatriz_zerosM _ _)
    (fun s a hae hPs => by
      have hnod := hnodes a (List.mem_of_mem_filter hae)
      obtain ⟨i', hok, hsh⟩ := pasoI_ok_existe hPs hg hnod.1 hnod.2
      exact ⟨i', hok, hsh⟩)
  exact ⟨i, hok, hsh⟩

/-- `construirVectorE` always returns `m` rows. -/
theorem construirVectorE_length (el : List Elemento) :
    (construirVectorE el).length = (el.filter esFuenteV).length := by
  simp only [construirVectorE]
  split_ifs with hm
  · rw [hm]; rfl
  · have aux : ∀ (l : List (ℕ × Elemento)) (B : Mat),
        (l.foldl (fun e par => setAt e par.1 0 (CQ.ofRat par.2.valor)) B).length
          = B.length := by
      intro l
      induction l with
      | nil => intro B; rfl
      | cons p l ih =>
          intro B
          rw [List.foldl_cons, ih]
          unfold setAt
          rw [List.length_set]
    rw [aux]
    unfold zerosM
    exact List.length_replicate _ _

/-! ## Shape and entries of the assembled system matrix (C6) -/

theorem esMatriz_mathTranspose {B : Mat} {n m : ℕ} (hB : esMatriz B n m)
    (hn : n ≠ 0) : esMatriz (mathTranspose B) m n := by
  have hc : numColumnas B = m := numColumnas_of_esMatriz hB hn
  constructor
  · simp [mathTranspose, hc]
  · intro row hrow
    obtain ⟨j, _, rfl⟩ := List.mem_map.mp hrow
    simp [hB.1]

theorem length_zipWith_append (l1 l2 : Mat) :
    (List.zipWith (fun a b => a ++ b) l1 l2).length = min l1.length l2.length :=
  List.length_zipWith _ l1 l2

theorem esMatriz_ensamblar {G B C D : Mat} {n m : ℕ}
    (hG : esMatriz G n n) (hB : esMatriz B n m)
    (hC : esMatriz C m n) (hD : esMatriz D m m) :
    esMatriz (ensamblarMatrizA G B C D) (n + m) (n + m) := by
  have hGl := hG.1
  have hBl := hB.1
  have hCl := hC.1
  have hDl := hD.1
  constructor
  · unfold ensamblarMatrizA
    rw [List.length_append, length_zipWith_append, length_zipWith_append,
      hG.1, hB.1, hC.1, hD.1]
    omega
  · intro row hrow
    unfold ensamblarMatrizA at hrow
    rcases List.mem_append.mp hrow with h | h
    · obtain ⟨idx, hidx, hval⟩ := List.mem_iff_getElem.mp h
      rw [List.getElem_zipWith] at hval
      rw [length_zipWith_append, hG.1, hB.1] at hidx
      rw [← hval, List.length_append,
        hG.2 _ (List.getElem_mem (by omega)),
        hB.2 _ (List.getElem_mem (by omega))]
    · obtain ⟨idx, hidx, hval⟩ := List.mem_iff_getElem.mp h
      rw [List.getElem_zipWith] at hval
      rw [length_zipWith_append, hC.1, hD.1] at hidx
      rw [← hval, List.length_append,
        hC.2 _ (List.getElem_mem (by omega)),
        hD.2 _ (List.getElem_mem (by omega))]

theorem getD_zipWith_append (l1 l2 : Mat) (r : ℕ)
    (h1 : r < l1.length) (h2 : r < l2.length) :
    (List.zipWith (fun a b => a ++ b) l1 l2).getD r []
      = l1.getD r [] ++ l2.getD r [] := by
  rw [List.getD_eq_getElem?_getD, List.getElem?_zipWith,
    List.getElem?_eq_getElem h1, List.getElem?_eq_getElem h2,
    List.getD_eq_getElem?_getD, List.getElem?_eq_getElem h1,
    List.getD_eq_getElem?_getD, List.getElem?_eq_getElem h2]
  rfl

theorem rowA_lt {G B C D : Mat} {n m : ℕ} (hG : esMatriz G n n)
    (hB : esMatriz B n m) {r : ℕ} (hr : r < n) :
    (ensamblarMatrizA G B C D).getD r [] = G.getD r [] ++ B.getD r [] := by
  unfold ensamblarMatrizA
  rw [List.getD_eq_getElem?_getD,
    List.getElem?_append_left (by rw [length_zipWith_append, hG.1, hB.1]; omega),
    ← List.getD_eq_getElem?_getD,
    getD_zipWith_append _ _ r (by rw [hG.1]; omega) (by rw [hB.1]; omega)]

theorem rowA_ge {G B C D : Mat} {n m : ℕ} (hG : esMatriz G n n)
    (hB : esMatriz B n m) (hC : esMatriz C m n) (hD : esMatriz D m m)
    {s : ℕ} (hs : s < m) :
    (ensamblarMatrizA G B C D).getD (n + s) [] = C.getD s [] ++ D.getD s [] := by
  unfold ensamblarMatrizA
  have hlen : (List.zipWith (fun a b => a ++ b) G B).length = n := by
    rw [length_zipWith_append, hG.1, hB.1]; omega
  rw [List.getD_eq_getElem?_getD,
    List.getElem?_append_right (by omega), hlen,
    show n + s - n = s by omega,
    ← List.getD_eq_getElem?_getD,
    getD_zipWith_append _ _ s (by rw [hC.1]; omega) (by rw [hD.1]; omega)]

theorem entryM_A_izq {G B C D : Mat} {n m : ℕ} (hG : esMatriz G n n)
    (hB : esMatriz B n m) (r k : ℕ) (hr : r < n) (hk : k < n) :
    entryM (ensamblarMatrizA G B C D) r k = entryM G r k := by
  unfold entryM
  rw [rowA_lt hG hB hr, List.getD_eq_getElem?_getD,
    List.getElem?_append_left (by rw [getD_length_of_esMatriz hG hr]; omega),
    ← List.getD_eq_getElem?_getD]

theorem entryM_A_inf {G B C D : Mat} {n m : ℕ} (hG : esMatriz G n n)
    (hB : esMatriz B n m) (hC : esMatriz C m n) (hD : esMatriz D m m)
    (s k : ℕ) (hs : s < m) (hk : k < n) :
    entryM (ensamblarMatrizA G B C D) (n + s) k = entryM C s k := by
  unfold entryM
  rw [rowA_ge hG hB hC hD hs, List.getD_eq_getElem?_getD,
    List.getElem?_append_left (by rw [getD_length_of_esMatriz hC hs]; omega),
    ← List.getD_eq_getElem?_getD]

theorem entryM_mathTranspose {B : Mat} {n m : ℕ} (hB : esMatriz B n m)
    (hn : n ≠ 0) (s k : ℕ) (hs : s < m) (hk : k < n) :
    entryM (mathTranspose B) s k = entryM B k s := by
  unfold mathTranspose entryM
  have hc : numColumnas B = m := numColumnas_of_esMatriz hB hn
  rw [hc, getD_map_getElem (List.range m) _ s (by simpa using hs) [],
    List.get_range, getD_map_getElem B _ k (by rw [hB.1]; exact hk) 0]
  congr 1
  rw [List.getD_eq_getElem?_getD, List.getElem?_eq_getElem (hB.1 ▸ hk)]
  rfl

/-! ## A floating node makes the assembled system exactly singular (C6) -/

/-- Reachable nodes stay below any bound on all element terminals. -/
theorem alcanzable_cota {el : List Elemento} {g c : ℕ}
    (hc : ∀ e ∈ el, e.nodoPositivo ≤ c ∧ e.nodoNegativo ≤ c) (hg : g ≤ c) :
    ∀ a, Alcanzable el g a → a ≤ c := by
  intro a h
  induction h with
  | base => exact hg
  | step h hcon ih =>
      obtain ⟨e, he, hcase⟩ := hcon
      obtain ⟨h1, h2⟩ := hc e he
      rcases hcase with ⟨hp, hn⟩ | ⟨hp, hn⟩ <;> omega

/-- The reachability weight vector (padded with zeros over the source
block) is a null vector of the assembled `[[G, B], [Bᵀ, 0]]` matrix
whenever the weighted row sums of `G` and weighted column sums of `B`
vanish. -/
theorem mulVec_ensamblada_cero {G B : Mat} {n m : ℕ}
    (hG : esMatriz G n n) (hB : esMatriz B n m) (hn : n ≠ 0) (w : ℕ → CQ)
    (hGsum : ∀ r, wsum G n w r = 0)
    (hBcol : ∀ s, s < m → colsumB B n w s = 0) :
    Matrix.mulVec
      (toMat (n + m) (ensamblarMatrizA G B (construirMatrizC B)
        (construirMatrizD m)))
      (fun k : Fin (n + m) => if (k : ℕ) < n then w (k : ℕ) else 0) = 0 := by
  have hC : esMatriz (construirMatrizC B) m n := esMatriz_mathTranspose hB hn
  have hD : esMatriz (construirMatrizD m) m m := esMatriz_zerosM m m
  set A := ensamblarMatrizA G B (construirMatrizC B) (construirMatrizD m)
    with hAdef
  funext r
  have hlt := r.isLt
  show (∑ j : Fin (n + m),
      entryM A (r : ℕ) (j : ℕ) * (if (j : ℕ) < n then w (j : ℕ) else 0)) = 0
  rw [Fin.sum_univ_eq_sum_range
    (fun q => entryM A (r : ℕ) q * (if q < n then w q else 0)) (n + m)]
  have hsub : Finset.range n ⊆ Finset.range (n + m) :=
    Finset.range_subset.mpr (Nat.le_add_right n m)
  have hvan : ∀ x ∈ Finset.range (n + m), x ∉ Finset.range n →
      entryM A (r : ℕ) x * (if x < n then w x else 0) = 0 := by
    intro x _ hx
    rw [if_neg fun hlt2 => hx (Finset.mem_range.mpr hlt2), mul_zero]
  rw [← Finset.sum_subset hsub hvan]
  rcases Nat.lt_or_ge (r : ℕ) n with hr | hr
  · have hcong : ∀ q ∈ Finset.range n,
        entryM A (r : ℕ) q * (if q < n then w q else 0)
          = entryM G (r : ℕ) q * w q := by
      intro q hq
      rw [Finset.mem_range] at hq
      rw [if_pos hq, hAdef, entryM_A_izq hG hB (r : ℕ) q hr hq]
    rw [Finset.sum_congr rfl hcong]
    have hs := hGsum (r : ℕ)
    simp only [wsum] at hs
    exact hs
  · obtain ⟨s, hs, hrs⟩ : ∃ s, s < m ∧ (r : ℕ) = n + s :=
      ⟨(r : ℕ) - n, by omega, by omega⟩
    have hcong : ∀ q ∈ Finset.range n,
        entryM A (r : ℕ) q * (if q < n then w q else 0)
          = entryM B q s * w q := by
      intro q hq
      rw [Finset.mem_range] at hq
      rw [if_pos hq, hrs, hAdef, entryM_A_inf hG hB hC hD s q hs hq]
      simp only [construirMatrizC]
      rw [entryM_mathTranspose hB hn s q hs hq]
    rw [Finset.sum_congr rfl hcong]
    have hsB := hBcol s hs
    simp only [colsumB] at hsB
    exact hsB

/-- If some index below `n` carries a nonzero weight while all weighted
sums vanish, the determinant of the assembled MNA matrix is exactly 0. -/
theorem detM_ensamblada_cero {G B : Mat} {n m : ℕ}
    (hG : esMatriz G n n) (hB : esMatriz B n m) (hn : n ≠ 0) (w : ℕ → CQ)
    (hGsum : ∀ r, wsum G n w r = 0)
    (hBcol : ∀ s, s < m → colsumB B n w s = 0)
    {q0 : ℕ} (hq0 : q0 < n) (hwq0 : w q0 ≠ 0) :
    detM (ensamblarMatrizA G B (construirMatrizC B) (construirMatrizD m))
      = 0 := by
  have hC : esMatriz (construirMatrizC B) m n := esMatriz_mathTranspose hB hn
  have hD : esMatriz (construirMatrizD m) m m := esMatriz_zerosM m m
  rw [detM_eq_det (esMatriz_ensamblar hG hB hC hD)]
  refine Matrix.exists_mulVec_eq_zero_iff.mp
    ⟨fun k : Fin (n + m) => if (k : ℕ) < n then w (k : ℕ) else 0, ?_,
     mulVec_ensamblada_cero hG hB hn w hGsum hBcol⟩
  intro hv
  apply hwq0
  have h0 := congrFun hv ⟨q0, by omega⟩
  simpa [hq0] using h0

/-- When the assembled matrix is square with matching right-hand side
and its exact determinant is 0, `resolverSistema` reports the wrapped
singular-system diagnostic. -/
theorem resolver_singular_con_det_cero {A z : Mat} {N : ℕ} (hN : N ≠ 0)
    (hA : esMatriz A N N) (hz : numFilas z = N) (hdet : detM A = 0) :
    resolverSistema A z = .error (MNAError.singularSystem
      ("Error al resolver sistema MNA: " ++ mensajeSingular)) := by
  have h1 : numFilas A = N := hA.1
  have h2 : numColumnas A = N := numColumnas_of_esMatriz hA hN
  unfold resolverSistema resolverSistemaNucleo
  rw [if_neg (not_not_intro (by rw [h1, h2])),
    if_neg (not_not_intro (by rw [hz, h1])),
    if_pos (by rw [hdet, CQ.normSq_zero]; norm_num)]
  exact of_decide_eq_true (by with_unfolding_all rfl)

/-- The analysis pipeline with its local definitions expanded. -/
theorem analizarCircuitoNucleo_def (el : List Elemento) (nn g : ℕ) (f : ℚ) :
    analizarCircuitoNucleo el nn g f =
      if el.length = 0 then
        .error (MNAError.invalidInput "No hay elementos en el circuito")
      else if nn < 2 then
        .error (MNAError.invalidInput
          "El circuito debe tener al menos 2 nodos incluyendo tierra")
      else if nn ≤ g then
        .error (MNAError.invalidInput "Nodo de tierra invalido")
      else if f < 0 then
        .error (MNAError.invalidInput "La frecuencia no puede ser negativa")
      else
        (construirMatrizG el nn g f).bind fun G =>
        (construirMatrizB el nn g).bind fun B =>
        (construirVectorI el nn g).bind fun i =>
        (resolverSistema
          (ensamblarMatrizA G B (construirMatrizC B)
            (construirMatrizD (el.filter esFuenteV).length))
          (ensamblarVectorZ i (construirVectorE el))).bind fun x =>
        .ok (extraerVoltajes nn g x, extraerCorrientes el nn x,
          ⟨ensamblarMatrizA G B (construirMatrizC B)
            (construirMatrizD (el.filter esFuenteV).length),
           x, ensamblarVectorZ i (construirVectorE el), G, B,
           construirMatrizC B,
           construirMatrizD (el.filter esFuenteV).length⟩) := rfl

/-- C6 (corrected): for a well-formed circuit — at least one element, at
least two nodes, a reference node in range, nonnegative frequency, every
element between two distinct in-range nodes, and no zero-ohm resistor —
that contains a node unreachable from the reference node via element
connections, `analizarCircuito` fails with a `SingularSystem` error and
returns no numeric result: the exact determinant of the assembled matrix
vanishes, so the solver raises the singular-matrix diagnostic, which the
outer catch converts into a structured failure.  The well-formedness
proviso is necessary; see the counterexample on `circuitoAutolazo`. -/
theorem nodo_no_alcanzable_singular (el : List Elemento) (nn g : ℕ) (f : ℚ)
    (hel : el ≠ []) (hnn : 2 ≤ nn) (hg : g < nn) (hf : 0 ≤ f)
    (hnodes : ∀ e ∈ el, e.nodoPositivo < nn ∧ e.nodoNegativo < nn)
    (hab : ∀ e ∈ el, e.nodoPositivo ≠ e.nodoNegativo)
    (hR : ∀ e ∈ el, e.tipo = Tipo.R → e.valor ≠ 0)
    (u : ℕ) (hu : u < nn) (hua : ¬ Alcanzable el g u) :
    analizarCircuito el nn g f =
      { exito := false,
        error := some (MNAError.singularSystem
          ("Error al resolver sistema MNA: " ++ mensajeSingular)),
        voltajes := [], corrientes := [], matrices := none } := by
  classical
  set w : ℕ → CQ := fun q => if Alcanzable el g (nodoReal q g) then 0 else 1
    with hw
  have hW1 : ∀ a : ℕ, a < nn → a ≠ g → Alcanzable el g a →
      w (nodoAIndice a g).toNat = 0 := by
    intro a _ hag halc
    simp only [hw, nodoReal_nodoAIndice hag, if_pos halc]
  have hW2 : ∀ a b : ℕ, a < nn → b < nn → a ≠ g → b ≠ g → Conecta el a b →
      w (nodoAIndice a g).toNat = w (nodoAIndice b g).toNat := by
    intro a b _ _ hag hbg hcon
    have hsym : Conecta el b a := by
      obtain ⟨e, he, hc⟩ := hcon
      exact ⟨e, he, hc.symm⟩
    have hiff : Alcanzable el g a ↔ Alcanzable el g b :=
      ⟨fun h => h.step hcon, fun h => h.step hsym⟩
    simp only [hw, nodoReal_nodoAIndice hag, nodoReal_nodoAIndice hbg]
    by_cases h : Alcanzable el g a
    · rw [if_pos h, if_pos (hiff.mp h)]
    · rw [if_neg h, if_neg fun hb => h (hiff.mpr hb)]
  obtain ⟨G, hGok, hGm, hGsum⟩ :=
    @construirG_ok_con_sumas el nn g f w hg hW1 hW2 hnodes hR
  obtain ⟨B, hBok, hBm, hBcol⟩ :=
    construirB_ok_con_sumas hg hW1 hW2 hnodes hab
  obtain ⟨i, hiok, him⟩ := construirVectorI_ok hg hnodes
  have hug : u ≠ g := fun h => hua (by rw [h]; exact Alcanzable.base)
  have hqr := nodoAIndice_rango hu hg hug
  have hq0 : (nodoAIndice u g).toNat < nn - 1 := by omega
  have hwq0 : w (nodoAIndice u g).toNat ≠ 0 := by
    simp only [hw, nodoReal_nodoAIndice hug, if_neg hua]
    exact one_ne_zero
  have hdet := detM_ensamblada_cero hGm hBm
    (by omega : nn - 1 ≠ 0) w hGsum hBcol hq0 hwq0
  have hCm : esMatriz (construirMatrizC B) (el.filter esFuenteV).length
      (nn - 1) := esMatriz_mathTranspose hBm (by omega)
  have hDm : esMatriz (construirMatrizD (el.filter esFuenteV).length)
      (el.filter esFuenteV).length (el.filter esFuenteV).length :=
    esMatriz_zerosM _ _
  have hz : numFilas (ensamblarVectorZ i (construirVectorE el))
      = nn - 1 + (el.filter esFuenteV).length := by
    simp only [ensamblarVectorZ, numFilas, List.length_append, him.1,
      construirVectorE_length]
  have hres := resolver_singular_con_det_cero
    (by omega : nn - 1 + (el.filter esFuenteV).length ≠ 0)
    (esMatriz_ensamblar hGm hBm hCm hDm) hz hdet
  have hnuc : analizarCircuitoNucleo el nn g f
      = .error (MNAError.singularSystem
        ("Error al resolver sistema MNA: " ++ mensajeSingular)) := by
    rw [analizarCircuitoNucleo_def,
      if_neg (fun h : el.length = 0 => hel (List.length_eq_zero.mp h)),
      if_neg (by omega : ¬ nn < 2),
      if_neg (by omega : ¬ nn ≤ g),
      if_neg (not_lt.mpr hf),
      hGok]
    simp only [except_bind_ok]
    rw [hBok]
    simp only [except_bind_ok]
    rw [hiok]
    simp only [except_bind_ok]
    rw [hres]
    rfl
  unfold analizarCircuito
  rw [hnuc]

/-- Closed witness for C6: a single 10 V source between node 1 and the
reference leaves node 2 floating, and the analysis fails with the wrapped
singular-system diagnostic. -/
theorem nodo_no_alcanzable_singular_testigo :
    analizarCircuito circuitoFlotante 3 0 0 =
      { exito := false,
        error := some (MNAError.singularSystem
          ("Error al resolver sistema MNA: " ++ mensajeSingular)),
        voltajes := [], corrientes := [], matrices := none } :=
  nodo_no_alcanzable_singular circuitoFlotante 3 0 0
    (by simp [circuitoFlotante])
    (by omega) (by omega) (le_refl 0)
    (by
      intro e he
      simp only [circuitoFlotante, List.mem_singleton] at he
      subst he
      decide)
    (by
      intro e he
      simp only [circuitoFlotante, List.mem_singleton] at he
      subst he
      decide)
    (by
      intro e he
      simp only [circuitoFlotante, List.mem_singleton] at he
      subst he
      decide)
    2 (by omega)
    (fun h => absurd
      (@alcanzable_cota circuitoFlotante 0 1
        (by
          intro e he
          simp only [circuitoFlotante, List.mem_singleton] at he
          subst he
          decide)
        (by omega) 2 h)
      (by omega))

/-- Counterexample bounding C6's universal reading: in `circuitoAutolazo`
node 2 is unreachable from the reference, yet `analizarCircuito` succeeds
(the self-looped voltage source pins node 2's voltage, so the assembled
system is non-singular) and no error of any kind is reported. -/
theorem autolazo_flotante_exitoso :
    (¬ Alcanzable circuitoAutolazo 0 2) ∧
    (analizarCircuito circuitoAutolazo 3 0 0).exito = true ∧
    (analizarCircuito circuitoAutolazo 3 0 0).error = none := by
  refine ⟨?_, of_decide_eq_true (by with_unfolding_all rfl)⟩
  have hinv : ∀ a, Alcanzable circuitoAutolazo 0 a → a ≠ 2 := by
    intro a h
    induction h with
    | base => decide
    | step h hcon ih =>
        rename_i a b
        obtain ⟨e, he, hc⟩ := hcon
        simp only [circuitoAutolazo, List.mem_cons, List.not_mem_nil,
          or_false] at he
        rcases he with rfl | rfl
        · rcases hc with ⟨h1, h2⟩ | ⟨h1, h2⟩
          · have h2x : (0 : ℕ) = b := h2
            omega
          · have h1x : (1 : ℕ) = b := h1
            omega
        · rcases hc with ⟨h1, h2⟩ | ⟨h1, h2⟩
          · have h1x : (2 : ℕ) = a := h1
            exact absurd h1x.symm ih
          · have h2x : (2 : ℕ) = a := h2
            exact absurd h2x.symm ih
  exact fun h => hinv 2 h rfl

end CircuitLab
